import Mathlib

/-!
# Highway path planner (`src/main.cpp`): embedding and verified properties

The C++ program works on `double`s.  They are modelled by the elements of an
arbitrary linearly ordered field `α` (exact arithmetic: no rounding, no NaN, no
infinities), so every definition runs on `ℚ` and every theorem also holds on `ℝ`.
The functions of `<math.h>` that the program calls (`sqrt`, `atan2`, `cos`,
`sin`, the constant `M_PI`) are not part of the repository; the definitions
take them as parameters, and the theorems state which of their laws they use.

`int` values are `Int` (or `Nat` for a loop index that is never negative); the
only `int` arithmetic of the program is `± 1` on small values.
-/

namespace PathPlanning

/-! ## The functions of `<math.h>` used by the program -/

/-- The part of the C math library that `main.cpp` calls. -/
structure CMath (α : Type) where
  /-- The constant `M_PI`. -/
  pi : α
  /-- The function `sqrt`. -/
  sqrt : α → α
  /-- The function `atan2 y x`. -/
  atan2 : α → α → α
  /-- The function `cos`. -/
  cos : α → α
  /-- The function `sin`. -/
  sin : α → α

/-- The laws of the math library that the round-trip proof relies on; the real
functions satisfy all of them (`realMath_lawful`). -/
structure CMath.Lawful {α : Type} [LinearOrderedField α] (m : CMath α) : Prop where
  sqrt_zero : m.sqrt 0 = 0
  sqrt_pos : ∀ a : α, 0 < a → 0 < m.sqrt a
  sqrt_mul_cos : ∀ x y : α, m.sqrt (x * x + y * y) * m.cos (m.atan2 y x) = x
  sqrt_mul_sin : ∀ x y : α, m.sqrt (x * x + y * y) * m.sin (m.atan2 y x) = y

/-- The laws of the math library used by the results on rotations and on the lateral
offset of `getXY`; the real functions satisfy all of them (`realMath_trig`). -/
structure CMath.Trig {α : Type} [LinearOrderedField α] (m : CMath α) : Prop where
  cos_sq_add_sin_sq : ∀ a : α, m.cos a * m.cos a + m.sin a * m.sin a = 1
  cos_neg : ∀ a : α, m.cos (-a) = m.cos a
  sin_neg : ∀ a : α, m.sin (-a) = -m.sin a
  cos_sub_half_pi : ∀ a : α, m.cos (a - m.pi / 2) = m.sin a
  sin_sub_half_pi : ∀ a : α, m.sin (a - m.pi / 2) = -m.cos a
  sqrt_mul_self : ∀ a : α, m.sqrt (a * a) = |a|

/-- The math library over the real numbers: `atan2 y x` is the argument of the
complex number `x + y i`, in `(-π, π]`, with `atan2 0 0 = 0` as in C. -/
noncomputable def realMath : CMath ℝ where
  pi := Real.pi
  sqrt := Real.sqrt
  atan2 := fun y x => Complex.arg (Complex.mk x y)
  cos := Real.cos
  sin := Real.sin

section Defs

variable {α : Type} [LinearOrderedField α]

/-! ## Constants (`main.cpp` lines 24-29) -/

/-- Width of a lane: `const double lane_width = 4.0`. -/
def lane_width : α := 4.0

/-- Distance to keep from other vehicles: `safe_distance_from_other_vehicle = 30.0`. -/
def safe_distance_from_other_vehicle : α := 30.0

/-- Maximum speed allowed: `highway_max_speed = 49.5`. -/
def highway_max_speed : α := 49.5

/-- Lane test of `main.cpp` lines 32-35: both comparisons are strict. -/
def is_other_vehicle_in_my_lane (d_other_vehicle : α) (my_lane : Int) : Bool :=
  decide (d_other_vehicle > lane_width * (my_lane : α)) &&
    decide (d_other_vehicle < lane_width * (my_lane : α) + lane_width)

/-! ## Vectors -/

/-- Read `v[i]` of a `vector<double>` at an index that the surrounding code keeps in
range (`0 ≤ i < v.size()`); the theorems about such code assume the map vectors
have equal length, which makes every one of these reads an in-range read. -/
def vec (v : List α) (i : Nat) : α := v.getD i 0

/-- Read `v[i]` at an `int` index that may be out of range: `none` stands for the
out-of-bounds access (negative index, or `i ≥ v.size()`). -/
def vecAt (v : List α) (i : Int) : Option α :=
  if 0 ≤ i then v.get? i.toNat else none

/-! ## Frame transform (`main.cpp` lines 68-196) -/

/-- Euclidean distance, `main.cpp` lines 68-71. -/
def distance (sqrt : α → α) (x1 y1 x2 y2 : α) : α :=
  sqrt ((x2 - x1) * (x2 - x1) + (y2 - y1) * (y2 - y1))

/-- One iteration of the loop of `ClosestWaypoint`; the state is
`(closestLen, closestWaypoint)`. -/
def ClosestWaypoint.body (sqrt : α → α) (x y : α) (maps_x maps_y : List α)
    (st : α × Nat) (i : Nat) : α × Nat :=
  let map_x := vec maps_x i
  let map_y := vec maps_y i
  let dist := distance sqrt x y map_x map_y
  if dist < st.1 then (dist, i) else st

/-- Index of the closest waypoint, `main.cpp` lines 73-94: the loop runs over
`i = 0 .. maps_x.size() - 1` from `closestLen = 100000`, `closestWaypoint = 0`. -/
def ClosestWaypoint (sqrt : α → α) (x y : α) (maps_x maps_y : List α) : Nat :=
  ((List.range maps_x.length).foldl (ClosestWaypoint.body sqrt x y maps_x maps_y)
    ((100000 : α), 0)).2

/-- Next waypoint, `main.cpp` lines 96-119. -/
def NextWaypoint (m : CMath α) (x y theta : α) (maps_x maps_y : List α) : Nat :=
  let closestWaypoint := ClosestWaypoint m.sqrt x y maps_x maps_y
  let map_x := vec maps_x closestWaypoint
  let map_y := vec maps_y closestWaypoint
  let heading := m.atan2 (map_y - y) (map_x - x)
  let angle := |theta - heading|
  let angle := min (2 * m.pi - angle) angle
  if angle > m.pi / 4 then
    let closestWaypoint := closestWaypoint + 1
    if closestWaypoint = maps_x.length then 0 else closestWaypoint
  else closestWaypoint

/-- The loop `for (i = 0; i < prev_wp; i++) frenet_s += distance(...)` of `getFrenet`
(`main.cpp` lines 158-162): the length of the polyline from waypoint 0 to waypoint
`prev_wp`. -/
def getFrenet.arc (sqrt : α → α) (maps_x maps_y : List α) (prev_wp : Nat) : α :=
  (List.range prev_wp).foldl
    (fun frenet_s i => frenet_s +
      distance sqrt (vec maps_x i) (vec maps_y i) (vec maps_x (i + 1)) (vec maps_y (i + 1)))
    0

/-- Cartesian to Frenet, `main.cpp` lines 122-168; the result is `(frenet_s, frenet_d)`.
The divisor of `proj_norm` is zero only when the waypoints `prev_wp` and `next_wp`
coincide (C++ then computes NaN, the field `0`); the round-trip theorem assumes a map on
which this does not happen. -/
def getFrenet (m : CMath α) (x y theta : α) (maps_x maps_y : List α) : α × α :=
  let next_wp := NextWaypoint m x y theta maps_x maps_y
  let prev_wp : Nat := if next_wp = 0 then maps_x.length - 1 else next_wp - 1
  let n_x := vec maps_x next_wp - vec maps_x prev_wp
  let n_y := vec maps_y next_wp - vec maps_y prev_wp
  let x_x := x - vec maps_x prev_wp
  let x_y := y - vec maps_y prev_wp
  let proj_norm := (x_x * n_x + x_y * n_y) / (n_x * n_x + n_y * n_y)
  let proj_x := proj_norm * n_x
  let proj_y := proj_norm * n_y
  let frenet_d := distance m.sqrt x_x x_y proj_x proj_y
  let center_x := 1000 - vec maps_x prev_wp
  let center_y := 2000 - vec maps_y prev_wp
  let centerToPos := distance m.sqrt center_x center_y x_x x_y
  let centerToRef := distance m.sqrt center_x center_y proj_x proj_y
  let frenet_d := if centerToPos ≤ centerToRef then frenet_d * (-1) else frenet_d
  let frenet_s := getFrenet.arc m.sqrt maps_x maps_y prev_wp
  let frenet_s := frenet_s + distance m.sqrt 0 0 proj_x proj_y
  (frenet_s, frenet_d)

/-- The loop `while (s > maps_s[prev_wp+1] && prev_wp < (int)(maps_s.size()-1)) prev_wp++`
of `getXY` (`main.cpp` lines 175-178), started at `prev_wp`; the left operand is
evaluated first, so an index `prev_wp + 1` outside the vector gives `none`. -/
def getXY.scan (s : α) (maps_s : List α) (prev_wp : Int) : Option Int :=
  match vecAt maps_s (prev_wp + 1) with
  | none => none
  | some v =>
    if h : s > v ∧ prev_wp < (maps_s.length : Int) - 1 then
      getXY.scan s maps_s (prev_wp + 1)
    else some prev_wp
termination_by ((maps_s.length : Int) - 1 - prev_wp).toNat
decreasing_by omega

/-- Frenet to Cartesian, `main.cpp` lines 171-196; `none` when an index read by the
function is outside its vector (or the modulus `maps_x.size()` is zero). -/
def getXY (m : CMath α) (s d : α) (maps_s maps_x maps_y : List α) : Option (α × α) := do
  let prev_wp ← getXY.scan s maps_s (-1)
  if maps_x.length = 0 then none
  let wp2 : Int := (prev_wp + 1) % (maps_x.length : Int)
  let y2 ← vecAt maps_y wp2
  let y1 ← vecAt maps_y prev_wp
  let x2 ← vecAt maps_x wp2
  let x1 ← vecAt maps_x prev_wp
  let heading := m.atan2 (y2 - y1) (x2 - x1)
  let s1 ← vecAt maps_s prev_wp
  let seg_s := s - s1
  let seg_x := x1 + seg_s * m.cos heading
  let seg_y := y1 + seg_s * m.sin heading
  let perp_heading := heading - m.pi / 2
  let x := seg_x + d * m.cos perp_heading
  let y := seg_y + d * m.sin perp_heading
  some (x, y)

/-! ## Behaviour planner (`main.cpp` lines 37-51 and 235-346) -/

/-- One entry `sensor_fusion[i]` of the telemetry message: the JSON array
`[id, x, y, vx, vy, s, d]` (indices 0 to 6). -/
structure SensorFusion (α : Type) where
  id : α
  x : α
  y : α
  vx : α
  vy : α
  s : α
  d : α

/-- The `struct Vehicle` of `main.cpp` lines 37-51. -/
structure Vehicle (α : Type) where
  s : α
  d : α
  vx : α
  vy : α
  speed : α

/-- The constructor `Vehicle(nlohmann::json &sensor_fusion)`. -/
def Vehicle.ofSensorFusion (sqrt : α → α) (sensor_fusion : SensorFusion α) : Vehicle α :=
  { s := sensor_fusion.s
    d := sensor_fusion.d
    vx := sensor_fusion.vx
    vy := sensor_fusion.vy
    speed := sqrt (sensor_fusion.vx * sensor_fusion.vx + sensor_fusion.vy * sensor_fusion.vy) }

/-- The fields of the telemetry object `j[1]` (`main.cpp` lines 259-275). -/
structure Telemetry (α : Type) where
  car_x : α
  car_y : α
  car_s : α
  car_d : α
  car_yaw : α
  car_speed : α
  previous_path_x : List α
  previous_path_y : List α
  end_path_s : α
  end_path_d : α
  sensor_fusion : List (SensorFusion α)

/-- The state captured by reference by the message handler: `lane` and `ref_vel`
(`main.cpp` lines 235-240). -/
structure PlannerState (α : Type) where
  lane : Int
  ref_vel : α

/-- The state at start-up: `int lane = 1; double ref_vel = 0.0;`. -/
def initialState : PlannerState α := { lane := 1, ref_vel := 0.0 }

/-- The value of `car_s` after `if (prev_size > 0) car_s = end_path_s;`
(`main.cpp` lines 277-280). -/
def egoS (t : Telemetry α) : α :=
  if t.previous_path_x.length > 0 then t.end_path_s else t.car_s

/-- The `s` of a vehicle after `vehicle.s += prev_size * 0.02 * vehicle.speed`. -/
def predictedS (prev_size : Nat) (vehicle : Vehicle α) : α :=
  vehicle.s + (prev_size : α) * 0.02 * vehicle.speed

/-- One iteration of the first loop over `sensor_fusion` (`main.cpp` lines 287-302);
the state is `(is_too_close, should_change_lane)`. -/
def tooClose.body (sqrt : α → α) (lane : Int) (car_s : α) (prev_size : Nat)
    (flags : Bool × Bool) (sensor_fusion_i : SensorFusion α) : Bool × Bool :=
  let vehicle := Vehicle.ofSensorFusion sqrt sensor_fusion_i
  if is_other_vehicle_in_my_lane vehicle.d lane then
    let vehicle_s := predictedS prev_size vehicle
    if vehicle_s > car_s ∧ vehicle_s - car_s < safe_distance_from_other_vehicle then
      (true, true)
    else flags
  else flags

/-- The first loop: `(is_too_close, should_change_lane)` after all vehicles. -/
def tooClose (sqrt : α → α) (lane : Int) (car_s : α) (prev_size : Nat)
    (sensor_fusion : List (SensorFusion α)) : Bool × Bool :=
  sensor_fusion.foldl (tooClose.body sqrt lane car_s prev_size) (false, false)

/-- The three flags of the lane-change decision (`main.cpp` lines 305-307). -/
structure LaneFlags where
  ready_for_lane_change : Bool
  is_left_lane_free : Bool
  is_right_lane_free : Bool
deriving DecidableEq

/-- One iteration of the second loop over `sensor_fusion` (`main.cpp` lines 311-333). -/
def laneChange.body (sqrt : α → α) (lane : Int) (car_s : α) (prev_size : Nat)
    (flags : LaneFlags) (sensor_fusion_i : SensorFusion α) : LaneFlags :=
  let vehicle := Vehicle.ofSensorFusion sqrt sensor_fusion_i
  let flags : LaneFlags :=
    if is_other_vehicle_in_my_lane vehicle.d (lane - 1) then
      let vehicle_s := predictedS prev_size vehicle
      let too_close_to_change :=
        decide (vehicle_s > car_s - safe_distance_from_other_vehicle) &&
          decide (vehicle_s < car_s + safe_distance_from_other_vehicle)
      if too_close_to_change then { flags with is_left_lane_free := false } else flags
    else if is_other_vehicle_in_my_lane vehicle.d (lane + 1) then
      let vehicle_s := predictedS prev_size vehicle
      let too_close_to_change :=
        decide (vehicle_s > car_s - safe_distance_from_other_vehicle) &&
          decide (vehicle_s < car_s + safe_distance_from_other_vehicle)
      if too_close_to_change then { flags with is_right_lane_free := false } else flags
    else flags
  if flags.is_left_lane_free || flags.is_right_lane_free then
    { flags with ready_for_lane_change := true }
  else flags

/-- The lane-change decision flags (`main.cpp` lines 305-334): the second loop runs
only when `should_change_lane` holds. -/
def laneChange (sqrt : α → α) (lane : Int) (car_s : α) (prev_size : Nat)
    (should_change_lane : Bool) (sensor_fusion : List (SensorFusion α)) : LaneFlags :=
  let init : LaneFlags :=
    { ready_for_lane_change := false, is_left_lane_free := true, is_right_lane_free := true }
  if should_change_lane then
    sensor_fusion.foldl (laneChange.body sqrt lane car_s prev_size) init
  else init

/-- The lane after `// perform lane change` (`main.cpp` lines 336-340). -/
def performLaneChange (flags : LaneFlags) (lane : Int) : Int :=
  if flags.ready_for_lane_change ∧ flags.is_left_lane_free ∧ lane > 0 then lane - 1
  else if flags.ready_for_lane_change ∧ flags.is_right_lane_free ∧ lane < 2 then lane + 1
  else lane

/-- The reference velocity after the speed control (`main.cpp` lines 342-346). -/
def speedControl (is_too_close : Bool) (ref_vel : α) : α :=
  if is_too_close then ref_vel - 0.224
  else if ref_vel < highway_max_speed then ref_vel + 0.224
  else ref_vel

/-- The effect of one telemetry message on `(lane, ref_vel)`: `main.cpp` lines 277-346. -/
def cycle (sqrt : α → α) (st : PlannerState α) (t : Telemetry α) : PlannerState α :=
  let prev_size := t.previous_path_x.length
  let car_s := egoS t
  let close := tooClose sqrt st.lane car_s prev_size t.sensor_fusion
  let flags := laneChange sqrt st.lane car_s prev_size close.2 t.sensor_fusion
  { lane := performLaneChange flags st.lane
    ref_vel := speedControl close.1 st.ref_vel }

/-- The state after a sequence of telemetry messages, handled in order. -/
def run (sqrt : α → α) (st : PlannerState α) (ts : List (Telemetry α)) : PlannerState α :=
  ts.foldl (cycle sqrt) st

/-! ## Trajectory generator (`main.cpp` lines 18-21 and 349-451) -/

/-- Degrees to radians, `main.cpp` line 20. -/
def deg2rad (m : CMath α) (x : α) : α := x * m.pi / 180

/-- The reference state and the first two anchors after the anchor selection
(`main.cpp` lines 351-386). -/
structure Reference (α : Type) where
  ref_x : α
  ref_y : α
  ref_yaw : α
  pts_x : List α
  pts_y : List α

/-- Anchor selection, `main.cpp` lines 351-386: from the car when the leftover
trajectory has fewer than 2 points, otherwise from its last two points. -/
def referencePoints (m : CMath α) (t : Telemetry α) : Reference α :=
  let prev_size := t.previous_path_x.length
  let ref_x := t.car_x
  let ref_y := t.car_y
  let ref_yaw := deg2rad m t.car_yaw
  if prev_size < 2 then
    let prev_car_x := t.car_x - m.cos t.car_yaw
    let prev_car_y := t.car_y - m.sin t.car_yaw
    { ref_x := ref_x, ref_y := ref_y, ref_yaw := ref_yaw
      pts_x := [prev_car_x, t.car_x], pts_y := [prev_car_y, t.car_y] }
  else
    let ref_x := vec t.previous_path_x (prev_size - 1)
    let ref_y := vec t.previous_path_y (prev_size - 1)
    let ref_x_prev := vec t.previous_path_x (prev_size - 2)
    let ref_y_prev := vec t.previous_path_y (prev_size - 2)
    let ref_yaw := m.atan2 (ref_y - ref_y_prev) (ref_x - ref_x_prev)
    { ref_x := ref_x, ref_y := ref_y, ref_yaw := ref_yaw
      pts_x := [ref_x_prev, ref_x], pts_y := [ref_y_prev, ref_y] }

/-- The body of the loop of `main.cpp` lines 401-407 on one anchor `(x, y)`: shift by the
reference point and rotate by `0 - ref_yaw`. -/
def toLocal (m : CMath α) (ref_x ref_y ref_yaw x y : α) : α × α :=
  let shift_x := x - ref_x
  let shift_y := y - ref_y
  (shift_x * m.cos (0 - ref_yaw) - shift_y * m.sin (0 - ref_yaw),
    shift_x * m.sin (0 - ref_yaw) + shift_y * m.cos (0 - ref_yaw))

/-- The loop of `main.cpp` lines 401-407 over all anchors. -/
def localAnchors (m : CMath α) (ref_x ref_y ref_yaw : α) (pts_x pts_y : List α) :
    List α × List α :=
  ((List.range pts_x.length).map
      (fun i => (toLocal m ref_x ref_y ref_yaw (vec pts_x i) (vec pts_y i)).1),
    (List.range pts_x.length).map
      (fun i => (toLocal m ref_x ref_y ref_yaw (vec pts_x i) (vec pts_y i)).2))

/-- Rotation back and translation of a sampled point (`main.cpp` lines 439-447). -/
def toWorld (m : CMath α) (ref_x ref_y ref_yaw x_ref y_ref : α) : α × α :=
  let x_point := x_ref * m.cos ref_yaw - y_ref * m.sin ref_yaw
  let y_point := x_ref * m.sin ref_yaw + y_ref * m.cos ref_yaw
  (x_point + ref_x, y_point + ref_y)

/-- The variables that the resampling loop updates: `x_add_on` and the two output
vectors. -/
structure SampleState (α : Type) where
  x_add_on : α
  next_x_vals : List α
  next_y_vals : List α

/-- One iteration of the resampling loop (`main.cpp` lines 431-451); `s` is the fitted
curve.  With `ref_vel = 0` the C++ quotient `target_x / N` is `30 / ∞ = 0`, which is also
the value of the field expression (`target_dist / 0 = 0`, `30 / 0 = 0`). -/
def resample.body (m : CMath α) (s : α → α) (ref_x ref_y ref_yaw ref_vel target_x
    target_dist : α) (st : SampleState α) : SampleState α :=
  let N := target_dist / (0.02 * ref_vel / 2.24)
  let x_point := st.x_add_on + target_x / N
  let y_point := s x_point
  let x_add_on := x_point
  let x_ref := x_point
  let y_ref := y_point
  let point := toWorld m ref_x ref_y ref_yaw x_ref y_ref
  { x_add_on := x_add_on
    next_x_vals := st.next_x_vals ++ [point.1]
    next_y_vals := st.next_y_vals ++ [point.2] }

/-- The resampling loop `for (int i = 1; i <= 50 - prev_size; ++i)`: it runs
`50 - prev_size` times, and not at all when `prev_size ≥ 50`. -/
def resample (m : CMath α) (s : α → α) (ref_x ref_y ref_yaw ref_vel target_x target_dist : α)
    (prev_size : Nat) (init : SampleState α) : SampleState α :=
  (List.range (50 - prev_size)).foldl
    (fun st _ => resample.body m s ref_x ref_y ref_yaw ref_vel target_x target_dist st) init

/-- The trajectory assembly once the three forward anchors `next_wp0`, `next_wp1`,
`next_wp2` are known (`main.cpp` lines 393-451).  The class `tk::spline` (`spline.h`) is
not in the repository: `spline pts_x pts_y` stands for the curve fitted by `set_points`.
`target_y0` is the indeterminate value of the uninitialised variable read by
`double target_y = s(target_y);`. -/
def assemble (m : CMath α) (spline : List α → List α → α → α) (target_y0 : α)
    (ref_vel : α) (t : Telemetry α) (next_wp0 next_wp1 next_wp2 : α × α) : List α × List α :=
  let prev_size := t.previous_path_x.length
  let r := referencePoints m t
  let pts_x := r.pts_x ++ [next_wp0.1, next_wp1.1, next_wp2.1]
  let pts_y := r.pts_y ++ [next_wp0.2, next_wp1.2, next_wp2.2]
  let pts := localAnchors m r.ref_x r.ref_y r.ref_yaw pts_x pts_y
  let s := spline pts.1 pts.2
  let next_x_vals := (List.range prev_size).map (fun i => vec t.previous_path_x i)
  let next_y_vals := (List.range prev_size).map (fun i => vec t.previous_path_y i)
  let target_x : α := 30.0
  let target_y := s target_y0
  let target_dist := m.sqrt (target_x * target_x + target_y * target_y)
  let x_add_on : α := 0.0
  let out := resample m s r.ref_x r.ref_y r.ref_yaw ref_vel target_x target_dist prev_size
    { x_add_on := x_add_on, next_x_vals := next_x_vals, next_y_vals := next_y_vals }
  (out.next_x_vals, out.next_y_vals)

/-- The trajectory `(next_x_vals, next_y_vals)` emitted by one telemetry message
(`main.cpp` lines 349-457), from the state `st` left by the behaviour part; `none` when
one of the three calls of `getXY` reads a map vector out of range. -/
def trajectory (m : CMath α) (spline : List α → List α → α → α) (target_y0 : α)
    (maps_s maps_x maps_y : List α) (st : PlannerState α) (t : Telemetry α) :
    Option (List α × List α) := do
  let car_s := egoS t
  let d := lane_width * (st.lane : α) + lane_width / 2
  let next_wp0 ← getXY m (car_s + 30) d maps_s maps_x maps_y
  let next_wp1 ← getXY m (car_s + 60) d maps_s maps_x maps_y
  let next_wp2 ← getXY m (car_s + 90) d maps_s maps_x maps_y
  some (assemble m spline target_y0 st.ref_vel t next_wp0 next_wp1 next_wp2)

/-- One telemetry message (`main.cpp` lines 256-457): the new `(lane, ref_vel)` and the
emitted trajectory. -/
def onMessage (m : CMath α) (spline : List α → List α → α → α) (target_y0 : α)
    (maps_s maps_x maps_y : List α) (st : PlannerState α) (t : Telemetry α) :
    PlannerState α × Option (List α × List α) :=
  let st := cycle m.sqrt st t
  (st, trajectory m spline target_y0 maps_s maps_x maps_y st t)

end Defs

section SpecDefs

variable {α : Type} [LinearOrderedField α]

/-! ## Specification-side definitions and example inputs

Concrete runs of the planner are evaluated over `ℚ` with `Rat.sqrt`, the rational square
root (exact on squares of rationals); the example objects are stationary, so it is only
ever applied to `0`.  Concrete evaluations of the frame transform are over `ℝ` with
`realMath`. -/

/-- The sentence "some tracked object in lane `lane` has propagated `s` greater than
ego's `s` and less than the safety distance ahead", with the propagated `s` written
out: `s + len(leftover) * 0.02 * sqrt(vx^2 + vy^2)`. -/
def CloseAhead (sqrt : α → α) (lane : Int) (ego_s : α) (leftover : Nat)
    (objects : List (SensorFusion α)) : Prop :=
  ∃ o ∈ objects, is_other_vehicle_in_my_lane o.d lane = true ∧
    o.s + (leftover : α) * 0.02 * sqrt (o.vx * o.vx + o.vy * o.vy) > ego_s ∧
    o.s + (leftover : α) * 0.02 * sqrt (o.vx * o.vx + o.vy * o.vy) - ego_s < 30

instance CloseAhead.instDecidable (sqrt : α → α) (lane : Int) (ego_s : α) (leftover : Nat)
    (objects : List (SensorFusion α)) : Decidable (CloseAhead sqrt lane ego_s leftover objects) := by
  unfold CloseAhead; infer_instance

/-- A run in which no message carries a tracked object. -/
def NoTraffic (ts : List (Telemetry α)) : Prop := ∀ t ∈ ts, t.sensor_fusion = []

/-- A telemetry message with nothing on the road: ego at `s = 0`, `d = 6`, no
leftover trajectory, no tracked object. -/
def emptyRoad : Telemetry α :=
  { car_x := 0, car_y := 0, car_s := 0, car_d := 6, car_yaw := 0, car_speed := 0
    previous_path_x := [], previous_path_y := [], end_path_s := 0, end_path_d := 0
    sensor_fusion := [] }

/-- A stationary tracked object at road-frame position `(s, d)`. -/
def parked (s d : α) : SensorFusion α :=
  { id := 0, x := 0, y := 0, vx := 0, vy := 0, s := s, d := d }

/-- The sentence "some tracked object in lane `k` has propagated `s` strictly between
`ego_s - 30` and `ego_s + 30`". -/
def Occupied (sqrt : α → α) (k : Int) (ego_s : α) (leftover : Nat)
    (objects : List (SensorFusion α)) : Prop :=
  ∃ o ∈ objects, is_other_vehicle_in_my_lane o.d k = true ∧
    ego_s - 30 < o.s + (leftover : α) * 0.02 * sqrt (o.vx * o.vx + o.vy * o.vy) ∧
    o.s + (leftover : α) * 0.02 * sqrt (o.vx * o.vx + o.vy * o.vy) < ego_s + 30

/-- A message like `emptyRoad` but with the given tracked objects. -/
def roadWith (objects : List (SensorFusion α)) : Telemetry α :=
  { (emptyRoad : Telemetry α) with sensor_fusion := objects }

/-- The sentence "some tracked object in lane `k` has propagated `s` within the closed
interval `[ego_s - 30, ego_s + 30]`". -/
def OccupiedClosed (sqrt : α → α) (k : Int) (ego_s : α) (leftover : Nat)
    (objects : List (SensorFusion α)) : Prop :=
  ∃ o ∈ objects, is_other_vehicle_in_my_lane o.d k = true ∧
    ego_s - 30 ≤ o.s + (leftover : α) * 0.02 * sqrt (o.vx * o.vx + o.vy * o.vy) ∧
    o.s + (leftover : α) * 0.02 * sqrt (o.vx * o.vx + o.vy * o.vy) ≤ ego_s + 30

/-- The state `(closestLen, closestWaypoint)` of the loop of `ClosestWaypoint` after the
iterations `i = 0 .. k - 1`. -/
def ClosestWaypoint.after (sqrt : α → α) (x y : α) (maps_x maps_y : List α) (k : Nat) : α × Nat :=
  (List.range k).foldl (ClosestWaypoint.body sqrt x y maps_x maps_y) ((100000 : α), 0)

/-- The angular distance between the directions `a` and `b`, in `[0, π]`: the angle
`a - b` is reduced to `[0, 2π)` and the shorter way round is taken. -/
def angularDistance [FloorRing α] (pi a b : α) : α :=
  let r := (a - b) - 2 * pi * (⌊(a - b) / (2 * pi)⌋ : α)
  min r (2 * pi - r)

instance Occupied.instDecidable (sqrt : α → α) (k : Int) (ego_s : α) (leftover : Nat)
    (objects : List (SensorFusion α)) : Decidable (Occupied sqrt k ego_s leftover objects) := by
  unfold Occupied; infer_instance

/-- The two-pass lane rule: first decide over all tracked objects whether the left lane
and the right lane are free (no object of that lane strictly within 30 of ego), then,
when some object is close ahead, prefer left over right inside the lane range. -/
def twoPassLane (sqrt : α → α) (lane : Int) (ego_s : α) (leftover : Nat)
    (objects : List (SensorFusion α)) : Int :=
  let left_free := ¬ Occupied sqrt (lane - 1) ego_s leftover objects
  let right_free := ¬ Occupied sqrt (lane + 1) ego_s leftover objects
  if CloseAhead sqrt lane ego_s leftover objects then
    if left_free ∧ lane > 0 then lane - 1
    else if right_free ∧ lane < 2 then lane + 1
    else lane
  else lane

/-- The unit vector from the point `(x1, y1)` toward the point `(x2, y2)`. -/
def unitDirection (sqrt : α → α) (x1 y1 x2 y2 : α) : α × α :=
  ((x2 - x1) / distance sqrt x1 y1 x2 y2, (y2 - y1) / distance sqrt x1 y1 x2 y2)

/-- The vector `u` rotated by `-π/2`: `(x, y)` goes to
`(x cos(-π/2) - y sin(-π/2), x sin(-π/2) + y cos(-π/2)) = (y, -x)`. -/
def rotateMinusQuarter (u : α × α) : α × α := (u.2, -u.1)

/-- A telemetry message with a leftover trajectory of the two points `(1, 0)`, `(2, 0)`
ending at `s = 0`, and no tracked object. -/
def twoLeftover : Telemetry α :=
  { (emptyRoad : Telemetry α) with previous_path_x := [1, 2], previous_path_y := [0, 0] }

/-- A telemetry message like `emptyRoad` but with the ego yaw `yaw` (in degrees). -/
def facing (yaw : α) : Telemetry α :=
  { (emptyRoad : Telemetry α) with car_yaw := yaw }

/-- A run in which no message carries a tracked object close ahead in lane `lane`. -/
def QuietRun (sqrt : α → α) (lane : Int) (ts : List (Telemetry α)) : Prop :=
  ∀ t ∈ ts, ¬ CloseAhead sqrt lane (egoS t) t.previous_path_x.length t.sensor_fusion

end SpecDefs

section FrameLemmas

variable {α : Type} [LinearOrderedField α]

theorem ClosestWaypoint.after_succ (sqrt : α → α) (x y : α) (maps_x maps_y : List α) (k : Nat) :
    ClosestWaypoint.after sqrt x y maps_x maps_y (k + 1) =
      ClosestWaypoint.body sqrt x y maps_x maps_y
        (ClosestWaypoint.after sqrt x y maps_x maps_y k) k := by
  simp [ClosestWaypoint.after, List.range_succ, List.foldl_append]

/-- Loop invariant of `ClosestWaypoint`: either no waypoint seen so far is closer than
`100000` and the state is still the initial one, or the state holds the first waypoint
of minimum distance among those seen. -/
theorem ClosestWaypoint.after_spec (sqrt : α → α) (x y : α) (maps_x maps_y : List α) (k : Nat) :
    ((ClosestWaypoint.after sqrt x y maps_x maps_y k) = ((100000 : α), 0) ∧
        ∀ j < k, (100000 : α) ≤ distance sqrt x y (vec maps_x j) (vec maps_y j)) ∨
      ((ClosestWaypoint.after sqrt x y maps_x maps_y k).2 < k ∧
        (ClosestWaypoint.after sqrt x y maps_x maps_y k).1 =
          distance sqrt x y (vec maps_x (ClosestWaypoint.after sqrt x y maps_x maps_y k).2)
            (vec maps_y (ClosestWaypoint.after sqrt x y maps_x maps_y k).2) ∧
        (ClosestWaypoint.after sqrt x y maps_x maps_y k).1 < 100000 ∧
        (∀ j < k, (ClosestWaypoint.after sqrt x y maps_x maps_y k).1 ≤
          distance sqrt x y (vec maps_x j) (vec maps_y j)) ∧
        ∀ j < (ClosestWaypoint.after sqrt x y maps_x maps_y k).2,
          (ClosestWaypoint.after sqrt x y maps_x maps_y k).1 <
            distance sqrt x y (vec maps_x j) (vec maps_y j)) := by
  induction k with
  | zero => left; simp [ClosestWaypoint.after]
  | succ k ih =>
    rw [ClosestWaypoint.after_succ]
    generalize ClosestWaypoint.after sqrt x y maps_x maps_y k = st at ih
    obtain ⟨len, c⟩ := st
    simp only [ClosestWaypoint.body]
    rcases ih with ⟨hst, hall⟩ | ⟨hc, hlen, hlt, hmin, hfirst⟩
    · simp only [Prod.mk.injEq] at hst
      obtain ⟨rfl, rfl⟩ := hst
      by_cases hd : distance sqrt x y (vec maps_x k) (vec maps_y k) < 100000
      · right
        rw [if_pos hd]
        refine ⟨Nat.lt_succ_self k, rfl, hd, ?_, ?_⟩
        · intro j hj
          rcases Nat.lt_succ_iff_lt_or_eq.mp hj with h | h
          · exact le_of_lt (lt_of_lt_of_le hd (hall j h))
          · rw [h]
        · intro j hj
          exact lt_of_lt_of_le hd (hall j hj)
      · left
        rw [if_neg hd]
        refine ⟨rfl, ?_⟩
        intro j hj
        rcases Nat.lt_succ_iff_lt_or_eq.mp hj with h | h
        · exact hall j h
        · rw [h]; exact not_lt.mp hd
    · right
      simp only at hc hlen hlt hmin hfirst
      by_cases hd : distance sqrt x y (vec maps_x k) (vec maps_y k) < len
      · rw [if_pos hd]
        refine ⟨Nat.lt_succ_self k, rfl, lt_trans hd hlt, ?_, ?_⟩
        · intro j hj
          rcases Nat.lt_succ_iff_lt_or_eq.mp hj with h | h
          · exact le_of_lt (lt_of_lt_of_le hd (hmin j h))
          · rw [h]
        · intro j hj
          exact lt_of_lt_of_le hd (hmin j hj)
      · rw [if_neg hd]
        refine ⟨Nat.lt_succ_of_lt hc, hlen, hlt, ?_, hfirst⟩
        intro j hj
        rcases Nat.lt_succ_iff_lt_or_eq.mp hj with h | h
        · exact hmin j h
        · rw [h]; exact not_lt.mp hd

theorem ClosestWaypoint_eq_after (sqrt : α → α) (x y : α) (maps_x maps_y : List α) :
    ClosestWaypoint sqrt x y maps_x maps_y =
      (ClosestWaypoint.after sqrt x y maps_x maps_y maps_x.length).2 := rfl

/-- When some waypoint is closer than `100000`, the result is the first waypoint of
minimum distance. -/
theorem ClosestWaypoint_min (sqrt : α → α) (x y : α) (maps_x maps_y : List α)
    (hnear : ∃ j, j < maps_x.length ∧
      distance sqrt x y (vec maps_x j) (vec maps_y j) < 100000) :
    ClosestWaypoint sqrt x y maps_x maps_y < maps_x.length ∧
      (∀ j, j < maps_x.length →
        distance sqrt x y (vec maps_x (ClosestWaypoint sqrt x y maps_x maps_y))
            (vec maps_y (ClosestWaypoint sqrt x y maps_x maps_y)) ≤
          distance sqrt x y (vec maps_x j) (vec maps_y j)) ∧
      ∀ j, j < ClosestWaypoint sqrt x y maps_x maps_y →
        distance sqrt x y (vec maps_x (ClosestWaypoint sqrt x y maps_x maps_y))
            (vec maps_y (ClosestWaypoint sqrt x y maps_x maps_y)) <
          distance sqrt x y (vec maps_x j) (vec maps_y j) := by
  rw [ClosestWaypoint_eq_after]
  rcases ClosestWaypoint.after_spec sqrt x y maps_x maps_y maps_x.length with
    ⟨_, hall⟩ | ⟨hc, hlen, _, hmin, hfirst⟩
  · obtain ⟨j, hj, hd⟩ := hnear
    exact absurd hd (not_lt.mpr (hall j hj))
  · refine ⟨hc, ?_, ?_⟩
    · intro j hj; rw [← hlen]; exact hmin j hj
    · intro j hj; rw [← hlen]; exact hfirst j hj

/-- When no waypoint is closer than `100000`, the result is index 0. -/
theorem ClosestWaypoint_far (sqrt : α → α) (x y : α) (maps_x maps_y : List α)
    (hfar : ∀ j, j < maps_x.length →
      (100000 : α) ≤ distance sqrt x y (vec maps_x j) (vec maps_y j)) :
    ClosestWaypoint sqrt x y maps_x maps_y = 0 := by
  rw [ClosestWaypoint_eq_after]
  rcases ClosestWaypoint.after_spec sqrt x y maps_x maps_y maps_x.length with
    ⟨hst, _⟩ | ⟨hc, hlen, hlt, _, _⟩
  · rw [hst]
  · exact absurd (hlen ▸ hlt) (not_lt.mpr (hfar _ hc))

theorem ClosestWaypoint_lt (sqrt : α → α) (x y : α) (maps_x maps_y : List α)
    (hne : 0 < maps_x.length) : ClosestWaypoint sqrt x y maps_x maps_y < maps_x.length := by
  rw [ClosestWaypoint_eq_after]
  rcases ClosestWaypoint.after_spec sqrt x y maps_x maps_y maps_x.length with
    ⟨hst, _⟩ | ⟨hc, _⟩
  · rw [hst]; exact hne
  · exact hc

/-- The angular distance lies in `[0, π]`. -/
theorem angularDistance_range [FloorRing α] (pi a b : α) (hpi : 0 < pi) :
    0 ≤ angularDistance pi a b ∧ angularDistance pi a b ≤ pi := by
  unfold angularDistance
  have h2 : 0 < 2 * pi := by linarith
  have hlo : (⌊(a - b) / (2 * pi)⌋ : α) ≤ (a - b) / (2 * pi) := Int.floor_le _
  have hhi : (a - b) / (2 * pi) < (⌊(a - b) / (2 * pi)⌋ : α) + 1 := Int.lt_floor_add_one _
  rw [le_div_iff₀ h2] at hlo
  rw [div_lt_iff₀ h2] at hhi
  constructor
  · apply le_min <;> linarith
  · rcases le_total (a - b - 2 * pi * (⌊(a - b) / (2 * pi)⌋ : α)) pi with h | h
    · exact le_trans (min_le_left _ _) h
    · exact le_trans (min_le_right _ _) (by linarith)

/-- For two angles at most one turn apart, the value computed by `NextWaypoint`
(`min(2π - |a - b|, |a - b|)`) is their angular distance. -/
theorem angularDistance_of_abs_le [FloorRing α] (pi a b : α) (hpi : 0 < pi)
    (h : |a - b| ≤ 2 * pi) :
    angularDistance pi a b = min (2 * pi - |a - b|) |a - b| := by
  unfold angularDistance
  have h2 : 0 < 2 * pi := by linarith
  obtain ⟨hlo, hhi⟩ := abs_le.mp h
  rcases lt_trichotomy (a - b) 0 with hneg | hzero | hpos
  · rw [abs_of_neg hneg]
    rcases eq_or_lt_of_le hlo with heq | hlt
    · have hf : ⌊(a - b) / (2 * pi)⌋ = -1 := by
        rw [Int.floor_eq_iff, ← heq]
        have : -(2 * pi) / (2 * pi) = -1 := by field_simp
        rw [this]; norm_num
      rw [hf, ← heq]
      push_cast
      ring_nf
    · have hf : ⌊(a - b) / (2 * pi)⌋ = -1 := by
        rw [Int.floor_eq_iff]
        constructor
        · rw [le_div_iff₀ h2]; push_cast; linarith
        · rw [div_lt_iff₀ h2]; push_cast; linarith
      rw [hf]
      push_cast
      ring_nf
  · rw [hzero]
    simp [min_comm]
  · rw [abs_of_pos hpos]
    rcases eq_or_lt_of_le hhi with heq | hlt
    · have hf : ⌊(a - b) / (2 * pi)⌋ = 1 := by
        rw [Int.floor_eq_iff, heq]
        have : (2 * pi) / (2 * pi) = 1 := by field_simp
        rw [this]; norm_num
      rw [hf, heq]
      push_cast
      ring_nf
    · have hf : ⌊(a - b) / (2 * pi)⌋ = 0 := by
        rw [Int.floor_eq_iff]
        constructor
        · rw [le_div_iff₀ h2]; push_cast; linarith
        · rw [div_lt_iff₀ h2]; push_cast; linarith
      rw [hf]
      push_cast
      ring_nf
      rw [min_comm]

end FrameLemmas

section RoundTripLemmas

variable {α : Type} [LinearOrderedField α]

theorem vecAt_of_lt (v : List α) (i : Nat) (h : i < v.length) :
    vecAt v (i : Int) = some (vec v i) := by
  simp [vecAt, vec, List.getD, List.get?_eq_get h, List.getElem?_eq_getElem h]

theorem distance_self (sqrt : α → α) (h0 : sqrt 0 = 0) (a b : α) :
    distance sqrt a b a b = 0 := by
  simp [distance, h0]

theorem sum_sq_pos (a b : α) (h : a ≠ 0 ∨ b ≠ 0) : 0 < a * a + b * b := by
  rcases h with h | h
  · have := mul_self_pos.mpr h
    nlinarith [mul_self_nonneg b]
  · have := mul_self_pos.mpr h
    nlinarith [mul_self_nonneg a]

theorem distance_pos (sqrt : α → α) (hpos : ∀ a : α, 0 < a → 0 < sqrt a) (x1 y1 x2 y2 : α)
    (h : x1 ≠ x2 ∨ y1 ≠ y2) : 0 < distance sqrt x1 y1 x2 y2 := by
  apply hpos
  apply sum_sq_pos
  rcases h with h | h
  · left; exact sub_ne_zero.mpr (Ne.symm h)
  · right; exact sub_ne_zero.mpr (Ne.symm h)

theorem distance_nonneg (sqrt : α → α) (h0 : sqrt 0 = 0) (hpos : ∀ a : α, 0 < a → 0 < sqrt a)
    (x1 y1 x2 y2 : α) : 0 ≤ distance sqrt x1 y1 x2 y2 := by
  by_cases h : x1 = x2 ∧ y1 = y2
  · rw [h.1, h.2, distance_self sqrt h0]
  · exact le_of_lt (distance_pos sqrt hpos x1 y1 x2 y2 (by tauto))

/-- Points at distance zero coincide. -/
theorem eq_of_distance_pos_of_ne (sqrt : α → α) (h0 : sqrt 0 = 0) (x1 y1 x2 y2 : α)
    (h : 0 < distance sqrt x1 y1 x2 y2) : x1 ≠ x2 ∨ y1 ≠ y2 := by
  by_contra hcon
  push_neg at hcon
  rw [hcon.1, hcon.2, distance_self sqrt h0] at h
  exact lt_irrefl _ h

/-- At a waypoint that repeats no earlier waypoint, `ClosestWaypoint` returns its index. -/
theorem ClosestWaypoint_at_waypoint (m : CMath α) (hm : m.Lawful) (maps_x maps_y : List α)
    (i : Nat) (hi : i < maps_x.length)
    (hfresh : ∀ j, j < i → vec maps_x j ≠ vec maps_x i ∨ vec maps_y j ≠ vec maps_y i) :
    ClosestWaypoint m.sqrt (vec maps_x i) (vec maps_y i) maps_x maps_y = i := by
  have hdi : distance m.sqrt (vec maps_x i) (vec maps_y i) (vec maps_x i) (vec maps_y i) = 0 :=
    distance_self m.sqrt hm.sqrt_zero _ _
  obtain ⟨hc, hmin, hfirst⟩ := ClosestWaypoint_min m.sqrt (vec maps_x i) (vec maps_y i)
    maps_x maps_y ⟨i, hi, by rw [hdi]; norm_num⟩
  have hle := hmin i hi
  rw [hdi] at hle
  rcases lt_trichotomy (ClosestWaypoint m.sqrt (vec maps_x i) (vec maps_y i) maps_x maps_y) i
    with h | h | h
  · have hp := distance_pos m.sqrt hm.sqrt_pos (vec maps_x i) (vec maps_y i) _ _
      ((hfresh _ h).imp Ne.symm Ne.symm)
    exact absurd hle (not_le.mpr hp)
  · exact h
  · have hlt := hfirst i h
    rw [hdi] at hlt
    exact absurd hlt (not_lt.mpr
      (distance_nonneg m.sqrt hm.sqrt_zero hm.sqrt_pos _ _ _ _))

/-- At any waypoint `i`, `ClosestWaypoint` returns the first waypoint with the same
position: an index `c ≤ i` with the position of waypoint `i` that repeats no earlier one. -/
theorem ClosestWaypoint_first_copy (m : CMath α) (hm : m.Lawful) (maps_x maps_y : List α)
    (i : Nat) (hi : i < maps_x.length) :
    ClosestWaypoint m.sqrt (vec maps_x i) (vec maps_y i) maps_x maps_y ≤ i ∧
      vec maps_x (ClosestWaypoint m.sqrt (vec maps_x i) (vec maps_y i) maps_x maps_y) =
        vec maps_x i ∧
      vec maps_y (ClosestWaypoint m.sqrt (vec maps_x i) (vec maps_y i) maps_x maps_y) =
        vec maps_y i ∧
      ∀ j, j < ClosestWaypoint m.sqrt (vec maps_x i) (vec maps_y i) maps_x maps_y →
        vec maps_x j ≠ vec maps_x i ∨ vec maps_y j ≠ vec maps_y i := by
  have hdi : distance m.sqrt (vec maps_x i) (vec maps_y i) (vec maps_x i) (vec maps_y i) = 0 :=
    distance_self m.sqrt hm.sqrt_zero _ _
  obtain ⟨_, hmin, hfirst⟩ := ClosestWaypoint_min m.sqrt (vec maps_x i) (vec maps_y i)
    maps_x maps_y ⟨i, hi, by rw [hdi]; norm_num⟩
  have hle := hmin i hi
  rw [hdi] at hle
  have hnn := fun a b => distance_nonneg m.sqrt hm.sqrt_zero hm.sqrt_pos (vec maps_x i)
    (vec maps_y i) a b
  generalize ClosestWaypoint m.sqrt (vec maps_x i) (vec maps_y i) maps_x maps_y = c at *
  have hsame : vec maps_x c = vec maps_x i ∧ vec maps_y c = vec maps_y i := by
    by_contra hcon
    have hp := distance_pos m.sqrt hm.sqrt_pos (vec maps_x i) (vec maps_y i) (vec maps_x c)
      (vec maps_y c) (by
        by_contra h2
        push_neg at h2
        exact hcon ⟨h2.1.symm, h2.2.symm⟩)
    exact absurd hle (not_le.mpr hp)
  refine ⟨?_, hsame.1, hsame.2, ?_⟩
  · by_contra hlt
    have h := hfirst i (not_le.mp hlt)
    rw [hdi] at h
    exact absurd h (not_lt.mpr (hnn _ _))
  · intro j hj
    have h := lt_of_le_of_lt (hnn (vec maps_x c) (vec maps_y c)) (hfirst j hj)
    exact (eq_of_distance_pos_of_ne m.sqrt hm.sqrt_zero _ _ _ _ h).imp Ne.symm Ne.symm

theorem getFrenet.arc_succ (sqrt : α → α) (maps_x maps_y : List α) (k : Nat) :
    getFrenet.arc sqrt maps_x maps_y (k + 1) =
      getFrenet.arc sqrt maps_x maps_y k +
        distance sqrt (vec maps_x k) (vec maps_y k) (vec maps_x (k + 1)) (vec maps_y (k + 1)) := by
  simp [getFrenet.arc, List.range_succ, List.foldl_append]

theorem getXY.scan_step (s : α) (maps_s : List α) (p : Int) (v : α)
    (hv : vecAt maps_s (p + 1) = some v) (hs : s > v) (hp : p < (maps_s.length : Int) - 1) :
    getXY.scan s maps_s p = getXY.scan s maps_s (p + 1) := by
  rw [getXY.scan, hv]
  simp only [hs, hp, and_self, dite_true]

theorem getXY.scan_stop (s : α) (maps_s : List α) (p : Int) (v : α)
    (hv : vecAt maps_s (p + 1) = some v) (hs : ¬ s > v) :
    getXY.scan s maps_s p = some p := by
  rw [getXY.scan, hv]
  simp only [hs, false_and, dite_false]

/-- The scan of `getXY` passes every waypoint whose `s` is below the requested `s`. -/
theorem getXY.scan_run (s : α) (maps_s : List α) (i : Nat) (hi : i < maps_s.length)
    (hbelow : ∀ j, j < i → vec maps_s j < s) (d k : Nat) (hk : k + d = i) :
    getXY.scan s maps_s ((k : Int) - 1) = getXY.scan s maps_s ((i : Int) - 1) := by
  induction d generalizing k with
  | zero => rw [← hk]; simp
  | succ d ih =>
    have hki : k < i := by omega
    have hstep := getXY.scan_step s maps_s ((k : Int) - 1) (vec maps_s k)
      (by rw [sub_add_cancel]; exact vecAt_of_lt maps_s k (by omega))
      (hbelow k hki) (by omega)
    rw [hstep, sub_add_cancel]
    have := ih (k + 1) (by omega)
    push_cast at this
    rw [add_sub_cancel_right] at this
    exact this

/-- At waypoint `i ≥ 1` (one that repeats no earlier waypoint) and for every heading,
`getFrenet` returns the polyline length up to waypoint `i` and the offset `0`. -/
theorem getFrenet_at_waypoint (m : CMath α) (hm : m.Lawful) (theta : α)
    (maps_x maps_y : List α) (i : Nat) (h1 : 1 ≤ i) (hi : i < maps_x.length)
    (hfresh : ∀ j, j < i → vec maps_x j ≠ vec maps_x i ∨ vec maps_y j ≠ vec maps_y i) :
    getFrenet m (vec maps_x i) (vec maps_y i) theta maps_x maps_y =
      (getFrenet.arc m.sqrt maps_x maps_y i, 0) := by
  have hc := ClosestWaypoint_at_waypoint m hm maps_x maps_y i hi hfresh
  have hnext : NextWaypoint m (vec maps_x i) (vec maps_y i) theta maps_x maps_y = i ∨
      (NextWaypoint m (vec maps_x i) (vec maps_y i) theta maps_x maps_y =
          (if i + 1 = maps_x.length then 0 else i + 1)) := by
    simp only [NextWaypoint, hc]
    split_ifs <;> simp
  have hzero : m.sqrt 0 = 0 := hm.sqrt_zero
  rcases hnext with hn | hn
  · -- the next waypoint is `i` itself: the previous one is `i - 1`
    obtain ⟨k, rfl⟩ : ∃ k, i = k + 1 := ⟨i - 1, by omega⟩
    have hne := hfresh k (Nat.lt_succ_self k)
    have hden : (vec maps_x (k + 1) - vec maps_x k) * (vec maps_x (k + 1) - vec maps_x k) +
        (vec maps_y (k + 1) - vec maps_y k) * (vec maps_y (k + 1) - vec maps_y k) ≠ 0 := by
      apply ne_of_gt
      apply sum_sq_pos
      rcases hne with h | h
      · left; exact sub_ne_zero.mpr (Ne.symm h)
      · right; exact sub_ne_zero.mpr (Ne.symm h)
    simp only [getFrenet, hn, Nat.succ_ne_zero, if_false, Nat.add_sub_cancel]
    rw [div_self hden]
    simp only [one_mul, distance_self m.sqrt hzero, zero_mul, ite_self,
      getFrenet.arc_succ]
    simp [distance]
  · -- the next waypoint is the successor of `i`: the previous one is `i`
    have hprev : (if (if i + 1 = maps_x.length then 0 else i + 1) = 0 then maps_x.length - 1
        else (if i + 1 = maps_x.length then 0 else i + 1) - 1) = i := by
      by_cases ha : i + 1 = maps_x.length
      · rw [if_pos ha, if_pos rfl]; omega
      · rw [if_neg ha, if_neg (Nat.succ_ne_zero i)]; omega
    simp only [getFrenet, hn, hprev, sub_self, zero_mul, add_zero, zero_div,
      distance_self m.sqrt hzero, ite_self]

/-- The `s` values of a strictly increasing list increase along the indices. -/
theorem strictly_increasing_lt (maps_s : List α)
    (hinc : ∀ j, j + 1 < maps_s.length → vec maps_s j < vec maps_s (j + 1))
    (j i : Nat) (hji : j < i) (hi : i < maps_s.length) : vec maps_s j < vec maps_s i := by
  induction i with
  | zero => omega
  | succ i ih =>
    rcases Nat.lt_succ_iff_lt_or_eq.mp hji with h | h
    · exact lt_trans (ih h (by omega)) (hinc i hi)
    · rw [h]; exact hinc i hi

/-- On a map whose `s` values are strictly increasing and equal to the polyline length,
`getXY` at `s = maps_s[i]`, `d = 0` (with `i ≥ 1`) returns waypoint `i`. -/
theorem getXY_at_waypoint (m : CMath α) (hm : m.Lawful) (maps_s maps_x maps_y : List α)
    (hlx : maps_s.length = maps_x.length) (hly : maps_x.length = maps_y.length)
    (harc : ∀ j, j < maps_s.length → vec maps_s j = getFrenet.arc m.sqrt maps_x maps_y j)
    (hinc : ∀ j, j + 1 < maps_s.length → vec maps_s j < vec maps_s (j + 1))
    (i : Nat) (h1 : 1 ≤ i) (hi : i < maps_x.length) :
    getXY m (vec maps_s i) 0 maps_s maps_x maps_y = some (vec maps_x i, vec maps_y i) := by
  obtain ⟨k, rfl⟩ : ∃ k, i = k + 1 := ⟨i - 1, by omega⟩
  have hks : k + 1 < maps_s.length := by omega
  -- the scan stops at `prev_wp = k`
  have hrun := getXY.scan_run (vec maps_s (k + 1)) maps_s (k + 1) hks
    (fun j hj => strictly_increasing_lt maps_s hinc j (k + 1) hj hks) (k + 1) 0 (by omega)
  have hstop := getXY.scan_stop (vec maps_s (k + 1)) maps_s (k : Int) (vec maps_s (k + 1))
    (by exact_mod_cast vecAt_of_lt maps_s (k + 1) hks) (lt_irrefl _)
  have hscan : getXY.scan (vec maps_s (k + 1)) maps_s (-1) = some (k : Int) := by
    have h0 : ((0 : Nat) : Int) - 1 = -1 := by norm_num
    have hk1 : ((k + 1 : Nat) : Int) - 1 = (k : Int) := by push_cast; ring
    rw [h0, hk1] at hrun
    rw [hrun, hstop]
  have hmod : ((k : Int) + 1) % (maps_x.length : Int) = ((k + 1 : Nat) : Int) := by
    rw [Int.emod_eq_of_lt (by omega) (by omega)]; push_cast; ring
  have hseg : vec maps_s (k + 1) - vec maps_s k =
      m.sqrt ((vec maps_x (k + 1) - vec maps_x k) * (vec maps_x (k + 1) - vec maps_x k) +
        (vec maps_y (k + 1) - vec maps_y k) * (vec maps_y (k + 1) - vec maps_y k)) := by
    rw [harc (k + 1) hks, harc k (by omega), getFrenet.arc_succ, distance]
    ring
  have hxne : maps_x.length ≠ 0 := by omega
  simp only [getXY, hscan, hmod, Option.bind_eq_bind, Option.some_bind, hxne, if_false,
    vecAt_of_lt maps_y (k + 1) (by omega), vecAt_of_lt maps_y k (by omega),
    vecAt_of_lt maps_x (k + 1) (by omega), vecAt_of_lt maps_x k (by omega),
    vecAt_of_lt maps_s k (by omega), hseg, hm.sqrt_mul_cos, hm.sqrt_mul_sin, zero_mul, add_zero]
  simp

/-- The value of `getXY` once the scan has stopped at `prev_wp` and every read is in
range. -/
theorem getXY_of_scan (m : CMath α) (s d : α) (maps_s maps_x maps_y : List α)
    (prev_wp : Int) (x1 y1 x2 y2 s1 : α)
    (hscan : getXY.scan s maps_s (-1) = some prev_wp) (hne : maps_x.length ≠ 0)
    (hy2 : vecAt maps_y ((prev_wp + 1) % (maps_x.length : Int)) = some y2)
    (hy1 : vecAt maps_y prev_wp = some y1)
    (hx2 : vecAt maps_x ((prev_wp + 1) % (maps_x.length : Int)) = some x2)
    (hx1 : vecAt maps_x prev_wp = some x1)
    (hs1 : vecAt maps_s prev_wp = some s1) :
    getXY m s d maps_s maps_x maps_y =
      some (x1 + (s - s1) * m.cos (m.atan2 (y2 - y1) (x2 - x1)) +
              d * m.cos (m.atan2 (y2 - y1) (x2 - x1) - m.pi / 2),
            y1 + (s - s1) * m.sin (m.atan2 (y2 - y1) (x2 - x1)) +
              d * m.sin (m.atan2 (y2 - y1) (x2 - x1) - m.pi / 2)) := by
  simp only [getXY, hscan, Option.bind_eq_bind, Option.some_bind, hne, if_false, hy2, hy1,
    hx2, hx1, hs1]
  simp

end RoundTripLemmas

section FrameClaims

variable {α : Type} [LinearOrderedField α]

/-! ## Facts on the real math library and on the example maps -/

theorem real_distance_axis (a : ℝ) (ha : 0 ≤ a) : distance Real.sqrt 0 0 a 0 = a := by
  unfold distance
  rw [show (a - 0) * (a - 0) + (0 - 0) * (0 - 0) = a * a by ring]
  exact Real.sqrt_mul_self ha

theorem real_distance_down (a : ℝ) (ha : 0 ≤ a) : distance Real.sqrt 0 0 0 (-a) = a := by
  unfold distance
  rw [show (0 - 0) * (0 - 0) + (-a - 0) * (-a - 0) = a * a by ring]
  exact Real.sqrt_mul_self ha

theorem realMath_atan2_down : realMath.atan2 (-1 - 0) (0 - 0) = -(Real.pi / 2) := by
  have h : (Complex.mk (0 - 0) (-1 - 0)) = -Complex.I := by
    apply Complex.ext <;> simp
  show Complex.arg (Complex.mk (0 - 0) (-1 - 0)) = -(Real.pi / 2)
  rw [h, Complex.arg_neg_I]

/-- On the map with waypoints `(0, -1)` and `(0, -2)`, the waypoint closest to the
origin is waypoint 0. -/
theorem closest_example : ClosestWaypoint Real.sqrt 0 0 [0, 0] [-1, -2] = 0 := by
  have hd0 : distance Real.sqrt 0 0 (vec [(0 : ℝ), 0] 0) (vec [(-1 : ℝ), -2] 0) = 1 := by
    have := real_distance_down 1 (by norm_num)
    simpa [vec] using this
  have hd1 : distance Real.sqrt 0 0 (vec [(0 : ℝ), 0] 1) (vec [(-1 : ℝ), -2] 1) = 2 := by
    have := real_distance_down 2 (by norm_num)
    simpa [vec] using this
  obtain ⟨hc, hmin, _⟩ := ClosestWaypoint_min Real.sqrt 0 0 [(0 : ℝ), 0] [(-1 : ℝ), -2]
    ⟨0, by simp, by rw [hd0]; norm_num⟩
  have h0 := hmin 0 (by simp)
  rw [hd0] at h0
  simp only [List.length_cons, List.length_nil] at hc
  rcases Nat.lt_succ_iff_lt_or_eq.mp hc with h | h
  · omega
  · rw [h, hd1] at h0
    norm_num at h0

theorem realMath_lawful : realMath.Lawful where
  sqrt_zero := Real.sqrt_zero
  sqrt_pos := fun _ ha => Real.sqrt_pos.mpr ha
  sqrt_mul_cos := fun x y => by
    have h := Complex.abs_mul_cos_arg (Complex.mk x y)
    rw [Complex.abs_apply, Complex.normSq_mk] at h
    exact h
  sqrt_mul_sin := fun x y => by
    have h := Complex.abs_mul_sin_arg (Complex.mk x y)
    rw [Complex.abs_apply, Complex.normSq_mk] at h
    exact h

theorem realMath_atan2_ahead (x : ℝ) (hx : 0 ≤ x) : realMath.atan2 0 x = 0 :=
  Complex.arg_eq_zero_iff.mpr ⟨hx, rfl⟩

/-- On the straight map with waypoints `(0,0)`, `(10,0)`, `(20,0)`, `getFrenet` at
waypoint 1 returns `s = 10` (the polyline length) and `d = 0`, for every heading. -/
theorem frenet_example (theta : ℝ) :
    getFrenet realMath 10 0 theta [0, 10, 20] [0, 0, 0] = (10, 0) := by
  have h := getFrenet_at_waypoint realMath realMath_lawful theta [0, 10, 20] [0, 0, 0] 1
    le_rfl (by simp) (by
      intro j hj
      have hj0 : j = 0 := by omega
      subst hj0
      left
      simp [vec])
  have hx : vec [(0 : ℝ), 10, 20] 1 = 10 := rfl
  have hy : vec [(0 : ℝ), 0, 0] 1 = 0 := rfl
  rw [hx, hy] at h
  rw [h, getFrenet.arc_succ]
  have hx0 : vec [(0 : ℝ), 10, 20] 0 = 0 := rfl
  have hy0 : vec [(0 : ℝ), 0, 0] 0 = 0 := rfl
  have hd : distance realMath.sqrt 0 0 10 0 = 10 := real_distance_axis 10 (by norm_num)
  rw [hx0, hy0, hx, hy, hd]
  simp [getFrenet.arc]

/-- On the same map with `maps_s = [0, 5, 10]`, `getXY(10, 0)` is the point `(15, 0)`. -/
theorem getXY_example :
    getXY realMath 10 0 [0, 5, 10] [0, 10, 20] [0, 0, 0] = some (15, 0) := by
  have h1 : getXY.scan (10 : ℝ) [0, 5, 10] (-1) = getXY.scan (10 : ℝ) [0, 5, 10] 0 :=
    getXY.scan_step 10 [0, 5, 10] (-1) 0 (by simp [vecAt]) (by norm_num)
      (by simp)
  have h2 : getXY.scan (10 : ℝ) [0, 5, 10] 0 = getXY.scan (10 : ℝ) [0, 5, 10] 1 :=
    getXY.scan_step 10 [0, 5, 10] 0 5 (by simp [vecAt]) (by norm_num)
      (by simp)
  have h3 : getXY.scan (10 : ℝ) [0, 5, 10] 1 = some 1 :=
    getXY.scan_stop 10 [0, 5, 10] 1 10 (by simp [vecAt]) (by norm_num)
  have hscan : getXY.scan (10 : ℝ) [0, 5, 10] (-1) = some 1 := by rw [h1, h2, h3]
  rw [getXY_of_scan realMath 10 0 [0, 5, 10] [0, 10, 20] [0, 0, 0] 1 10 0 20 0 5 hscan
    (by simp) (by simp [vecAt]) (by simp [vecAt]) (by simp [vecAt]) (by simp [vecAt])
    (by simp [vecAt])]
  have hat : realMath.atan2 (0 - 0) (20 - 10) = 0 := by
    rw [sub_self]; exact realMath_atan2_ahead _ (by norm_num)
  have hcos : realMath.cos 0 = 1 := Real.cos_zero
  have hsin : realMath.sin 0 = 0 := Real.sin_zero
  rw [hat, hcos, hsin]
  norm_num

/-- C1 (counterexample): on the map with waypoints `(0,0)`, `(10,0)`, `(20,0)` and
`maps_s = [0, 5, 10]` (equal lengths, `s` non-decreasing), at waypoint 1 with the heading
toward waypoint 2, `getXY` of the pair returned by `getFrenet` is `(15, 0)`, at distance
`5` from the waypoint `(10, 0)`. -/
theorem C1_round_trip_fails :
    getXY realMath
        (getFrenet realMath 10 0 (realMath.atan2 (0 - 0) (20 - 10)) [0, 10, 20] [0, 0, 0]).1
        (getFrenet realMath 10 0 (realMath.atan2 (0 - 0) (20 - 10)) [0, 10, 20] [0, 0, 0]).2
        [0, 5, 10] [0, 10, 20] [0, 0, 0] = some (15, 0) ∧
      distance Real.sqrt 10 0 15 0 = 5 ∧ (1e-6 : ℝ) < distance Real.sqrt 10 0 15 0 := by
  have hd : distance Real.sqrt 10 0 15 0 = 5 := by
    unfold distance
    rw [show ((15 : ℝ) - 10) * (15 - 10) + (0 - 0) * (0 - 0) = 5 * 5 by norm_num]
    exact Real.sqrt_mul_self (by norm_num)
  refine ⟨?_, hd, by rw [hd]; norm_num⟩
  rw [frenet_example]
  exact getXY_example

/-- C1 (amended): on a road map whose `s` list is strictly increasing and equal to the
cumulative length of the waypoint polyline (`maps_s[j]` is the sum of the distances between
consecutive waypoints up to `j`), for every waypoint `i` whose position differs from that
of waypoint 0 and every heading `theta`, `getXY` applied to the `(s, d)` pair returned by
`getFrenet(x_i, y_i, theta, map)` returns exactly `(x_i, y_i)`. -/
theorem C1_round_trip (m : CMath α) (hm : m.Lawful) (theta : α)
    (maps_s maps_x maps_y : List α)
    (hlx : maps_s.length = maps_x.length) (hly : maps_x.length = maps_y.length)
    (harc : ∀ j, j < maps_s.length → vec maps_s j = getFrenet.arc m.sqrt maps_x maps_y j)
    (hinc : ∀ j, j + 1 < maps_s.length → vec maps_s j < vec maps_s (j + 1))
    (i : Nat) (hi : i < maps_x.length)
    (hfirst : vec maps_x 0 ≠ vec maps_x i ∨ vec maps_y 0 ≠ vec maps_y i) :
    getXY m (getFrenet m (vec maps_x i) (vec maps_y i) theta maps_x maps_y).1
        (getFrenet m (vec maps_x i) (vec maps_y i) theta maps_x maps_y).2
        maps_s maps_x maps_y = some (vec maps_x i, vec maps_y i) := by
  obtain ⟨hci, hcx, hcy, hfresh⟩ := ClosestWaypoint_first_copy m hm maps_x maps_y i hi
  generalize ClosestWaypoint m.sqrt (vec maps_x i) (vec maps_y i) maps_x maps_y = c at *
  have hc1 : 1 ≤ c := by
    rcases Nat.eq_zero_or_pos c with h | h
    · subst h
      rcases hfirst with h' | h'
      · exact absurd hcx h'
      · exact absurd hcy h'
    · exact h
  have hcn : c < maps_x.length := lt_of_le_of_lt hci hi
  rw [← hcx, ← hcy] at hfresh ⊢
  rw [getFrenet_at_waypoint m hm theta maps_x maps_y c hc1 hcn hfresh]
  simp only
  rw [← harc c (by omega)]
  exact getXY_at_waypoint m hm maps_s maps_x maps_y hlx hly harc hinc c hc1 hcn

/-- C1 (witness): the map with waypoints `(0,0)` and `(3,4)` and `maps_s = [0, 5]`, at
waypoint 1 with the heading toward its successor (waypoint 0), over the real numbers. -/
theorem C1_round_trip_witness :
    getXY realMath
        (getFrenet realMath (vec [(0 : ℝ), 3] 1) (vec [(0 : ℝ), 4] 1)
          (realMath.atan2 (0 - 4) (0 - 3)) [0, 3] [0, 4]).1
        (getFrenet realMath (vec [(0 : ℝ), 3] 1) (vec [(0 : ℝ), 4] 1)
          (realMath.atan2 (0 - 4) (0 - 3)) [0, 3] [0, 4]).2
        [0, 5] [0, 3] [0, 4] = some (vec [(0 : ℝ), 3] 1, vec [(0 : ℝ), 4] 1) :=
  C1_round_trip realMath realMath_lawful (realMath.atan2 (0 - 4) (0 - 3)) [0, 5] [0, 3] [0, 4]
    rfl rfl
    (by
      intro j hj
      simp only [List.length_cons, List.length_nil] at hj
      have hj' : j = 0 ∨ j = 1 := by omega
      rcases hj' with rfl | rfl
      · simp [getFrenet.arc, vec]
      · rw [getFrenet.arc_succ]
        have h5 : distance realMath.sqrt (vec [(0 : ℝ), 3] 0) (vec [(0 : ℝ), 4] 0)
            (vec [(0 : ℝ), 3] (0 + 1)) (vec [(0 : ℝ), 4] (0 + 1)) = 5 := by
          show Real.sqrt (((3 : ℝ) - 0) * (3 - 0) + (4 - 0) * (4 - 0)) = 5
          rw [show ((3 : ℝ) - 0) * (3 - 0) + (4 - 0) * (4 - 0) = 5 * 5 by norm_num]
          exact Real.sqrt_mul_self (by norm_num)
        rw [h5]
        simp [getFrenet.arc, vec])
    (by
      intro j hj
      simp only [List.length_cons, List.length_nil] at hj
      have hj' : j = 0 := by omega
      subst hj'
      simp [vec])
    1 (by simp) (by left; simp [vec])

/-- C2 (counterexample): with waypoints `(200000, 0)` and `(100000, 0)` and the position
`(0, 0)`, `ClosestWaypoint` returns index 0 although waypoint 1 is strictly closer. -/
theorem C2_far_waypoints_not_minimal :
    ClosestWaypoint Real.sqrt 0 0 [200000, 100000] [0, 0] = 0 ∧
      distance Real.sqrt 0 0 (vec [(200000 : ℝ), 100000] 1) (vec [(0 : ℝ), 0] 1) <
        distance Real.sqrt 0 0 (vec [(200000 : ℝ), 100000] 0) (vec [(0 : ℝ), 0] 0) := by
  have hd0 : distance Real.sqrt 0 0 (vec [(200000 : ℝ), 100000] 0) (vec [(0 : ℝ), 0] 0)
      = 200000 := by
    have := real_distance_axis 200000 (by norm_num)
    simpa [vec] using this
  have hd1 : distance Real.sqrt 0 0 (vec [(200000 : ℝ), 100000] 1) (vec [(0 : ℝ), 0] 1)
      = 100000 := by
    have := real_distance_axis 100000 (by norm_num)
    simpa [vec] using this
  refine ⟨ClosestWaypoint_far _ _ _ _ _ ?_, by rw [hd0, hd1]; norm_num⟩
  intro j hj
  simp only [List.length_cons, List.length_nil] at hj
  have hj' : j = 0 ∨ j = 1 := by omega
  rcases hj' with rfl | rfl
  · rw [hd0]; norm_num
  · rw [hd1]

/-- C2 (amended): if some waypoint is at distance less than `100000` from `(x, y)`, then
`ClosestWaypoint` returns an index in range whose waypoint has the minimum distance to
`(x, y)` among all waypoints, and it is the smallest index attaining that minimum. -/
theorem C2_closest_waypoint (sqrt : α → α) (x y : α) (maps_x maps_y : List α)
    (hlen : maps_x.length = maps_y.length)
    (hnear : ∃ j, j < maps_x.length ∧
      distance sqrt x y (vec maps_x j) (vec maps_y j) < 100000) :
    ClosestWaypoint sqrt x y maps_x maps_y < maps_y.length ∧
      (∀ j, j < maps_x.length →
        distance sqrt x y (vec maps_x (ClosestWaypoint sqrt x y maps_x maps_y))
            (vec maps_y (ClosestWaypoint sqrt x y maps_x maps_y)) ≤
          distance sqrt x y (vec maps_x j) (vec maps_y j)) ∧
      ∀ j, j < ClosestWaypoint sqrt x y maps_x maps_y →
        distance sqrt x y (vec maps_x (ClosestWaypoint sqrt x y maps_x maps_y))
            (vec maps_y (ClosestWaypoint sqrt x y maps_x maps_y)) <
          distance sqrt x y (vec maps_x j) (vec maps_y j) := by
  rw [← hlen]
  exact ClosestWaypoint_min sqrt x y maps_x maps_y hnear

/-- C2 (witness): the map with waypoints `(0, -1)` and `(0, -2)` and the position
`(0, 0)`, over the real numbers. -/
theorem C2_closest_waypoint_witness :
    ClosestWaypoint Real.sqrt 0 0 [0, 0] [-1, -2] < [(-1 : ℝ), -2].length ∧
      (∀ j, j < [(0 : ℝ), 0].length →
        distance Real.sqrt 0 0 (vec [0, 0] (ClosestWaypoint Real.sqrt 0 0 [0, 0] [-1, -2]))
            (vec [-1, -2] (ClosestWaypoint Real.sqrt 0 0 [0, 0] [-1, -2])) ≤
          distance Real.sqrt 0 0 (vec [0, 0] j) (vec [-1, -2] j)) ∧
      ∀ j, j < ClosestWaypoint Real.sqrt 0 0 [0, 0] [-1, -2] →
        distance Real.sqrt 0 0 (vec [0, 0] (ClosestWaypoint Real.sqrt 0 0 [0, 0] [-1, -2]))
            (vec [-1, -2] (ClosestWaypoint Real.sqrt 0 0 [0, 0] [-1, -2])) <
          distance Real.sqrt 0 0 (vec [0, 0] j) (vec [-1, -2] j) :=
  C2_closest_waypoint Real.sqrt 0 0 [0, 0] [-1, -2] rfl
    ⟨0, by simp, by
      have := real_distance_down 1 (by norm_num)
      have h : distance Real.sqrt 0 0 (vec [(0 : ℝ), 0] 0) (vec [(-1 : ℝ), -2] 0) = 1 := by
        simpa [vec] using this
      rw [h]; norm_num⟩

theorem NextWaypoint_of_window [FloorRing α] (m : CMath α) (x y theta : α)
    (maps_x maps_y : List α) (hpi : 0 < m.pi) (hne : maps_x ≠ [])
    (hwin : |theta - m.atan2 (vec maps_y (ClosestWaypoint m.sqrt x y maps_x maps_y) - y)
        (vec maps_x (ClosestWaypoint m.sqrt x y maps_x maps_y) - x)| ≤ 2 * m.pi) :
    NextWaypoint m x y theta maps_x maps_y =
      if angularDistance m.pi theta
          (m.atan2 (vec maps_y (ClosestWaypoint m.sqrt x y maps_x maps_y) - y)
            (vec maps_x (ClosestWaypoint m.sqrt x y maps_x maps_y) - x)) > m.pi / 4 then
        (ClosestWaypoint m.sqrt x y maps_x maps_y + 1) % maps_x.length
      else ClosestWaypoint m.sqrt x y maps_x maps_y := by
  have hpos : 0 < maps_x.length := List.length_pos.mpr hne
  have hc := ClosestWaypoint_lt m.sqrt x y maps_x maps_y hpos
  rw [angularDistance_of_abs_le m.pi _ _ hpi hwin]
  simp only [NextWaypoint]
  split_ifs with h1 h2
  · rw [h2, Nat.mod_self]
  · rw [Nat.mod_eq_of_lt (by omega)]
  · rfl

/-- C3 (counterexample): position `(0, 0)`, waypoints `(0, -1)` and `(0, -2)`, heading
`theta = 15π/8`.  The closest waypoint is 0, in direction `-π/2`; the angular distance
between `theta` and that direction is `3π/8 > π/4`, yet `NextWaypoint` returns 0 and not
`(0 + 1) mod 2 = 1`. -/
theorem C3_unreduced_angle_not_advanced :
    NextWaypoint realMath 0 0 (15 * Real.pi / 8) [0, 0] [-1, -2] = 0 ∧
      ClosestWaypoint realMath.sqrt 0 0 [0, 0] [-1, -2] = 0 ∧
      angularDistance Real.pi (15 * Real.pi / 8)
          (realMath.atan2
            (vec [(-1 : ℝ), -2] (ClosestWaypoint realMath.sqrt 0 0 [0, 0] [-1, -2]) - 0)
            (vec [(0 : ℝ), 0] (ClosestWaypoint realMath.sqrt 0 0 [0, 0] [-1, -2]) - 0))
        > Real.pi / 4 ∧
      (ClosestWaypoint realMath.sqrt 0 0 [0, 0] [-1, -2] + 1) % [(0 : ℝ), 0].length = 1 := by
  have hpi := Real.pi_pos
  have hc : ClosestWaypoint realMath.sqrt 0 0 [0, 0] [-1, -2] = 0 := closest_example
  have hv1 : vec [(-1 : ℝ), -2] 0 = -1 := rfl
  have hv0 : vec [(0 : ℝ), 0] 0 = 0 := rfl
  refine ⟨?_, hc, ?_, ?_⟩
  · simp only [NextWaypoint, hc, hv1, hv0, realMath_atan2_down]
    have hang : |15 * Real.pi / 8 - -(Real.pi / 2)| = 19 * Real.pi / 8 := by
      rw [abs_of_pos (by linarith)]; ring
    have hmin : min (2 * realMath.pi - 19 * Real.pi / 8) (19 * Real.pi / 8)
        = 2 * Real.pi - 19 * Real.pi / 8 := by
      show min (2 * Real.pi - 19 * Real.pi / 8) (19 * Real.pi / 8) = _
      exact min_eq_left (by linarith)
    rw [hang, hmin]
    have hnot : ¬ 2 * Real.pi - 19 * Real.pi / 8 > realMath.pi / 4 := by
      show ¬ 2 * Real.pi - 19 * Real.pi / 8 > Real.pi / 4
      intro h; linarith
    rw [if_neg hnot]
  · rw [hc, hv1, hv0, realMath_atan2_down]
    unfold angularDistance
    have hf : ⌊(15 * Real.pi / 8 - -(Real.pi / 2)) / (2 * Real.pi)⌋ = 1 := by
      rw [Int.floor_eq_iff]
      have h2 : 0 < 2 * Real.pi := by linarith
      constructor
      · rw [le_div_iff₀ h2]; push_cast; linarith
      · rw [div_lt_iff₀ h2]; push_cast; linarith
    simp only [hf]
    push_cast
    rw [gt_iff_lt, lt_min_iff]
    constructor <;> linarith
  · rw [hc]; rfl

/-- C3 (amended): for a non-empty map, with `c = ClosestWaypoint(position)` and
`heading` the direction from the position to waypoint `c`: whenever
`|theta - heading| ≤ 2π` (for instance both angles in `(-π, π]`), `NextWaypoint` returns
`(c + 1) mod n` when the angular distance between `theta` and `heading` exceeds `π/4`, and
`c` otherwise. -/
theorem C3_next_waypoint [FloorRing α] (m : CMath α) (x y theta : α)
    (maps_x maps_y : List α) (hpi : 0 < m.pi) (hne : maps_x ≠ [])
    (hlen : maps_x.length = maps_y.length)
    (hwin : |theta - m.atan2 (vec maps_y (ClosestWaypoint m.sqrt x y maps_x maps_y) - y)
        (vec maps_x (ClosestWaypoint m.sqrt x y maps_x maps_y) - x)| ≤ 2 * m.pi) :
    ClosestWaypoint m.sqrt x y maps_x maps_y < maps_y.length ∧
      NextWaypoint m x y theta maps_x maps_y =
        if angularDistance m.pi theta
            (m.atan2 (vec maps_y (ClosestWaypoint m.sqrt x y maps_x maps_y) - y)
              (vec maps_x (ClosestWaypoint m.sqrt x y maps_x maps_y) - x)) > m.pi / 4 then
          (ClosestWaypoint m.sqrt x y maps_x maps_y + 1) % maps_x.length
        else ClosestWaypoint m.sqrt x y maps_x maps_y :=
  ⟨hlen ▸ ClosestWaypoint_lt m.sqrt x y maps_x maps_y (List.length_pos.mpr hne),
    NextWaypoint_of_window m x y theta maps_x maps_y hpi hne hwin⟩

/-- C3 (witness): position `(0, 0)`, waypoints `(0, -1)` and `(0, -2)`, heading
`theta = 0`, over the real numbers. -/
theorem C3_next_waypoint_witness :
    ClosestWaypoint realMath.sqrt 0 0 [0, 0] [-1, -2] < [(-1 : ℝ), -2].length ∧
      NextWaypoint realMath 0 0 0 [0, 0] [-1, -2] =
        if angularDistance realMath.pi 0
            (realMath.atan2
              (vec [(-1 : ℝ), -2] (ClosestWaypoint realMath.sqrt 0 0 [0, 0] [-1, -2]) - 0)
              (vec [(0 : ℝ), 0] (ClosestWaypoint realMath.sqrt 0 0 [0, 0] [-1, -2]) - 0))
            > realMath.pi / 4 then
          (ClosestWaypoint realMath.sqrt 0 0 [0, 0] [-1, -2] + 1) % [(0 : ℝ), 0].length
        else ClosestWaypoint realMath.sqrt 0 0 [0, 0] [-1, -2] :=
  C3_next_waypoint realMath 0 0 0 [0, 0] [-1, -2] Real.pi_pos (by simp) rfl
    (by
      have hc : ClosestWaypoint realMath.sqrt 0 0 [0, 0] [-1, -2] = 0 := closest_example
      have hv1 : vec [(-1 : ℝ), -2] 0 = -1 := rfl
      have hv0 : vec [(0 : ℝ), 0] 0 = 0 := rfl
      rw [hc, hv1, hv0, realMath_atan2_down]
      show |0 - -(Real.pi / 2)| ≤ 2 * Real.pi
      have hpi := Real.pi_pos
      rw [abs_of_pos (by linarith)]
      linarith)

end FrameClaims

section PlannerLemmas

variable {α : Type} [LinearOrderedField α]

/-! ## Lemmas on the two loops over `sensor_fusion` -/

theorem lane_test_iff (d : α) (k : Int) :
    is_other_vehicle_in_my_lane d k = true ↔ 4 * (k : α) < d ∧ d < 4 * (k : α) + 4 := by
  simp [is_other_vehicle_in_my_lane, lane_width]
  norm_num

theorem tooClose_body_eq (sqrt : α → α) (lane : Int) (car_s : α) (prev_size : Nat)
    (flags : Bool × Bool) (o : SensorFusion α) :
    tooClose.body sqrt lane car_s prev_size flags o =
      if CloseAhead sqrt lane car_s prev_size [o] then (true, true) else flags := by
  simp only [tooClose.body, CloseAhead, Vehicle.ofSensorFusion, predictedS,
    safe_distance_from_other_vehicle, List.mem_singleton, exists_eq_left]
  by_cases h1 : is_other_vehicle_in_my_lane o.d lane = true
  · simp only [h1, if_true, true_and]
    norm_num
  · simp [h1]

theorem closeAhead_cons (sqrt : α → α) (lane : Int) (car_s : α) (prev_size : Nat)
    (o : SensorFusion α) (l : List (SensorFusion α)) :
    CloseAhead sqrt lane car_s prev_size (o :: l) ↔
      CloseAhead sqrt lane car_s prev_size [o] ∨ CloseAhead sqrt lane car_s prev_size l := by
  simp [CloseAhead]

theorem tooClose_foldl (sqrt : α → α) (lane : Int) (car_s : α) (prev_size : Nat)
    (l : List (SensorFusion α)) (flags : Bool × Bool) :
    l.foldl (tooClose.body sqrt lane car_s prev_size) flags =
      if CloseAhead sqrt lane car_s prev_size l then (true, true) else flags := by
  induction l generalizing flags with
  | nil => simp [CloseAhead]
  | cons o l ih =>
    rw [List.foldl_cons, ih, tooClose_body_eq]
    by_cases h1 : CloseAhead sqrt lane car_s prev_size [o] <;>
    by_cases h2 : CloseAhead sqrt lane car_s prev_size l <;>
    simp [closeAhead_cons, h1, h2]

theorem tooClose_eq (sqrt : α → α) (lane : Int) (car_s : α) (prev_size : Nat)
    (l : List (SensorFusion α)) :
    tooClose sqrt lane car_s prev_size l =
      if CloseAhead sqrt lane car_s prev_size l then (true, true) else (false, false) :=
  tooClose_foldl sqrt lane car_s prev_size l (false, false)

theorem lane_bands_disjoint (d : α) (lane : Int)
    (h : is_other_vehicle_in_my_lane d (lane + 1) = true) :
    is_other_vehicle_in_my_lane d (lane - 1) = false := by
  rw [lane_test_iff] at h
  cases hb : is_other_vehicle_in_my_lane d (lane - 1) with
  | false => rfl
  | true =>
    rw [lane_test_iff] at hb
    push_cast at h hb
    linarith [h.1, hb.2]

theorem safe_distance_eq : (safe_distance_from_other_vehicle : α) = 30 := by
  norm_num [safe_distance_from_other_vehicle]

theorem laneChange_body_left (sqrt : α → α) (lane : Int) (car_s : α) (prev_size : Nat)
    (f : LaneFlags) (o : SensorFusion α) :
    (laneChange.body sqrt lane car_s prev_size f o).is_left_lane_free = true ↔
      f.is_left_lane_free = true ∧ ¬ Occupied sqrt (lane - 1) car_s prev_size [o] := by
  simp only [laneChange.body, Occupied, Vehicle.ofSensorFusion, predictedS,
    safe_distance_eq, List.mem_singleton, exists_eq_left]
  generalize o.s + (prev_size : α) * 0.02 * sqrt (o.vx * o.vx + o.vy * o.vy) = ps
  by_cases h1 : is_other_vehicle_in_my_lane o.d (lane - 1) = true <;>
  by_cases h2 : car_s - 30 < ps <;>
  by_cases h3 : ps < car_s + 30 <;>
  by_cases h4 : is_other_vehicle_in_my_lane o.d (lane + 1) = true <;>
  cases hl : f.is_left_lane_free <;>
  cases hr : f.is_right_lane_free <;>
  simp [h1, h2, h3, h4, hl, hr]

theorem laneChange_body_right (sqrt : α → α) (lane : Int) (car_s : α) (prev_size : Nat)
    (f : LaneFlags) (o : SensorFusion α) :
    (laneChange.body sqrt lane car_s prev_size f o).is_right_lane_free = true ↔
      f.is_right_lane_free = true ∧ ¬ Occupied sqrt (lane + 1) car_s prev_size [o] := by
  have hd := lane_bands_disjoint o.d lane
  simp only [laneChange.body, Occupied, Vehicle.ofSensorFusion, predictedS,
    safe_distance_eq, List.mem_singleton, exists_eq_left]
  generalize o.s + (prev_size : α) * 0.02 * sqrt (o.vx * o.vx + o.vy * o.vy) = ps
  by_cases h4 : is_other_vehicle_in_my_lane o.d (lane + 1) = true
  · have h1 := hd h4
    by_cases h2 : car_s - 30 < ps <;>
    by_cases h3 : ps < car_s + 30 <;>
    cases hl : f.is_left_lane_free <;>
    cases hr : f.is_right_lane_free <;>
    simp [h1, h2, h3, h4, hl, hr]
  · by_cases h1 : is_other_vehicle_in_my_lane o.d (lane - 1) = true <;>
    by_cases h2 : car_s - 30 < ps <;>
    by_cases h3 : ps < car_s + 30 <;>
    cases hl : f.is_left_lane_free <;>
    cases hr : f.is_right_lane_free <;>
    simp [h1, h2, h3, h4, hl, hr]

theorem occupied_cons (sqrt : α → α) (k : Int) (car_s : α) (prev_size : Nat)
    (o : SensorFusion α) (l : List (SensorFusion α)) :
    Occupied sqrt k car_s prev_size (o :: l) ↔
      Occupied sqrt k car_s prev_size [o] ∨ Occupied sqrt k car_s prev_size l := by
  simp [Occupied]

theorem laneChange_foldl_left (sqrt : α → α) (lane : Int) (car_s : α) (prev_size : Nat)
    (l : List (SensorFusion α)) (f : LaneFlags) :
    (l.foldl (laneChange.body sqrt lane car_s prev_size) f).is_left_lane_free = true ↔
      f.is_left_lane_free = true ∧ ¬ Occupied sqrt (lane - 1) car_s prev_size l := by
  induction l generalizing f with
  | nil => simp [Occupied]
  | cons o l ih =>
    rw [List.foldl_cons, ih, laneChange_body_left, occupied_cons sqrt _ car_s prev_size o l]
    tauto

theorem laneChange_foldl_right (sqrt : α → α) (lane : Int) (car_s : α) (prev_size : Nat)
    (l : List (SensorFusion α)) (f : LaneFlags) :
    (l.foldl (laneChange.body sqrt lane car_s prev_size) f).is_right_lane_free = true ↔
      f.is_right_lane_free = true ∧ ¬ Occupied sqrt (lane + 1) car_s prev_size l := by
  induction l generalizing f with
  | nil => simp [Occupied]
  | cons o l ih =>
    rw [List.foldl_cons, ih, laneChange_body_right, occupied_cons sqrt _ car_s prev_size o l]
    tauto

/-- With no tracked object in either adjacent lane, the second loop leaves both lanes
free and sets `ready_for_lane_change` as soon as it runs once. -/
theorem laneChange_foldl_clear (sqrt : α → α) (lane : Int) (car_s : α) (prev_size : Nat)
    (l : List (SensorFusion α)) (r : Bool)
    (hl : ∀ o ∈ l, is_other_vehicle_in_my_lane o.d (lane - 1) = false)
    (hr : ∀ o ∈ l, is_other_vehicle_in_my_lane o.d (lane + 1) = false) :
    l.foldl (laneChange.body sqrt lane car_s prev_size)
        { ready_for_lane_change := r, is_left_lane_free := true, is_right_lane_free := true } =
      { ready_for_lane_change := r || !l.isEmpty, is_left_lane_free := true,
        is_right_lane_free := true } := by
  induction l generalizing r with
  | nil => simp
  | cons o l ih =>
    have h1 := hl o (List.mem_cons_self _ _)
    have h2 := hr o (List.mem_cons_self _ _)
    have hb : laneChange.body sqrt lane car_s prev_size
        { ready_for_lane_change := r, is_left_lane_free := true, is_right_lane_free := true } o =
        { ready_for_lane_change := true, is_left_lane_free := true,
          is_right_lane_free := true } := by
      simp [laneChange.body, Vehicle.ofSensorFusion, h1, h2]
    rw [List.foldl_cons, hb,
      ih true (fun o ho => hl o (List.mem_cons_of_mem _ ho))
        (fun o ho => hr o (List.mem_cons_of_mem _ ho))]
    simp

end PlannerLemmas

section PlannerTheorems

variable {α : Type} [LinearOrderedField α]

/-! ## Lemmas on one cycle and on runs -/

theorem egoS_eq (t : Telemetry α) :
    egoS t = if t.previous_path_x ≠ [] then t.end_path_s else t.car_s := by
  unfold egoS
  cases t.previous_path_x <;> simp

theorem cycle_ref_vel (sqrt : α → α) (st : PlannerState α) (t : Telemetry α) :
    (cycle sqrt st t).ref_vel =
      if CloseAhead sqrt st.lane (egoS t) t.previous_path_x.length t.sensor_fusion then
        st.ref_vel - 0.224
      else if st.ref_vel < 49.5 then st.ref_vel + 0.224 else st.ref_vel := by
  simp only [cycle, tooClose_eq, speedControl, highway_max_speed]
  split_ifs <;> simp_all

theorem cycle_lane (sqrt : α → α) (st : PlannerState α) (t : Telemetry α) :
    (cycle sqrt st t).lane =
      performLaneChange
        (laneChange sqrt st.lane (egoS t) t.previous_path_x.length
          (decide (CloseAhead sqrt st.lane (egoS t) t.previous_path_x.length t.sensor_fusion))
          t.sensor_fusion) st.lane := by
  simp only [cycle, tooClose_eq]
  split_ifs <;> simp_all

theorem closeAhead_nil (sqrt : α → α) (lane : Int) (ego_s : α) (leftover : Nat) :
    ¬ CloseAhead sqrt lane ego_s leftover [] := by
  simp [CloseAhead]

theorem cycle_noTraffic (sqrt : α → α) (st : PlannerState α) (t : Telemetry α)
    (h : t.sensor_fusion = []) :
    cycle sqrt st t =
      { lane := st.lane
        ref_vel := if st.ref_vel < 49.5 then st.ref_vel + 0.224 else st.ref_vel } := by
  have h1 := cycle_ref_vel sqrt st t
  have h2 := cycle_lane sqrt st t
  rw [h, if_neg (closeAhead_nil _ _ _ _)] at h1
  rw [h] at h2
  simp only [closeAhead_nil, decide_False, laneChange, performLaneChange] at h2
  cases hc : cycle sqrt st t with
  | mk l v =>
    rw [hc] at h1 h2
    simp only at h1 h2
    simp_all

/-- The speed ramp on an empty road: from `k` steps of `0.224` (`k ≤ 221`), each
message adds one step until 221 steps are reached. -/
theorem run_noTraffic (sqrt : α → α) (ts : List (Telemetry α)) (hts : NoTraffic ts)
    (lane : Int) (k : Nat) (hk : k ≤ 221) :
    run sqrt { lane := lane, ref_vel := (k : α) * 0.224 } ts =
      { lane := lane, ref_vel := ((min (k + ts.length) 221 : Nat) : α) * 0.224 } := by
  induction ts generalizing k with
  | nil => simp [run, hk]
  | cons t ts ih =>
    have ht : t.sensor_fusion = [] := hts t (List.mem_cons_self _ _)
    have hts' : NoTraffic ts := fun u hu => hts u (List.mem_cons_of_mem _ hu)
    simp only [run, List.foldl_cons, cycle_noTraffic sqrt _ t ht]
    rcases Nat.lt_or_ge k 221 with hlt | hge
    · have hk' : ((k : α)) ≤ 220 := by exact_mod_cast Nat.lt_succ_iff.mp hlt
      have hlt' : (k : α) * 0.224 < 49.5 := by norm_num; linarith
      rw [if_pos hlt']
      have hstep : (k : α) * 0.224 + 0.224 = ((k + 1 : Nat) : α) * 0.224 := by
        push_cast; ring
      rw [hstep]
      have := ih hts' (k + 1) hlt
      simp only [run] at this
      rw [this]
      congr 3
      simp only [List.length_cons]
      omega
    · have hk221 : k = 221 := le_antisymm hk hge
      subst hk221
      have hnlt : ¬ ((221 : Nat) : α) * 0.224 < 49.5 := by norm_num
      rw [if_neg hnlt]
      have := ih hts' 221 le_rfl
      simp only [run] at this
      rw [this]
      congr 3
      simp only [List.length_cons]
      omega

theorem run_noTraffic_initial (sqrt : α → α) (ts : List (Telemetry α)) (hts : NoTraffic ts) :
    run sqrt initialState ts =
      { lane := 1, ref_vel := ((min ts.length 221 : Nat) : α) * 0.224 } := by
  have h := run_noTraffic sqrt ts hts 1 0 (by norm_num)
  have h0 : (initialState : PlannerState α) = { lane := 1, ref_vel := ((0 : Nat) : α) * 0.224 } := by
    simp only [initialState]; norm_num
  rw [h0, h]
  simp

theorem noTraffic_replicate (n : Nat) : NoTraffic (List.replicate n (emptyRoad : Telemetry α)) := by
  intro t ht
  rw [List.eq_of_mem_replicate ht]
  rfl

theorem performLaneChange_range (flags : LaneFlags) (lane : Int) (h0 : 0 ≤ lane) (h2 : lane ≤ 2) :
    0 ≤ performLaneChange flags lane ∧ performLaneChange flags lane ≤ 2 := by
  unfold performLaneChange
  split_ifs with h h' <;> omega

theorem run_append_one (sqrt : α → α) (st : PlannerState α) (ts : List (Telemetry α))
    (t : Telemetry α) : run sqrt st (ts ++ [t]) = cycle sqrt (run sqrt st ts) t := by
  simp [run, List.foldl_append]

theorem run_lane_range (sqrt : α → α) (ts : List (Telemetry α)) :
    0 ≤ (run sqrt (initialState : PlannerState α) ts).lane ∧
      (run sqrt (initialState : PlannerState α) ts).lane ≤ 2 := by
  induction ts using List.reverseRecOn with
  | nil => simp [run, initialState]
  | append_singleton ts t ih =>
    rw [run_append_one, cycle_lane]
    exact performLaneChange_range _ _ ih.1 ih.2

/-- Every reachable reference velocity is a whole number `k ≤ 221` of steps of `0.224`. -/
theorem run_ref_vel_steps (sqrt : α → α) (ts : List (Telemetry α)) :
    ∃ k : Int, k ≤ 221 ∧ (run sqrt (initialState : PlannerState α) ts).ref_vel = (k : α) * 0.224 := by
  induction ts using List.reverseRecOn with
  | nil => exact ⟨0, by norm_num, by simp only [run, initialState, List.foldl_nil]; norm_num⟩
  | append_singleton ts t ih =>
    obtain ⟨k, hk, hv⟩ := ih
    rw [run_append_one, cycle_ref_vel, hv]
    split_ifs with h1 h2
    · exact ⟨k - 1, by omega, by push_cast; ring⟩
    · refine ⟨k + 1, ?_, by push_cast; ring⟩
      by_contra hcon
      have hk221 : (221 : α) ≤ (k : α) := by exact_mod_cast (by omega : (221 : Int) ≤ k)
      have : (49.5 : α) ≤ (k : α) * 0.224 := by norm_num; linarith
      exact absurd h2 (not_lt.mpr this)
    · exact ⟨k, hk, rfl⟩

theorem rat_sqrt_zero : Rat.sqrt 0 = 0 := by
  have h := Rat.sqrt_eq 0
  rwa [mul_zero, abs_zero] at h

end PlannerTheorems

section PlannerClaims

variable {α : Type} [LinearOrderedField α]

/-- C4 (counterexample): at `d = 4 = 1 * W`, the lower end of lane 1's band
`[1 * W, 2 * W)`, the lane test for lane 1 is false. -/
theorem C4_lower_bound_not_in_lane :
    is_other_vehicle_in_my_lane (4 : ℚ) 1 = false ∧
      ((1 : Int) : ℚ) * lane_width ≤ 4 ∧ (4 : ℚ) < (((1 : Int) : ℚ) + 1) * lane_width := by
  refine ⟨?_, ?_, ?_⟩
  · simp [is_other_vehicle_in_my_lane, lane_width]; norm_num
  · norm_num [lane_width]
  · norm_num [lane_width]

/-- C4 (amended): `is_other_vehicle_in_my_lane d k` is true if and only if
`k * W < d < (k + 1) * W` with `W = lane_width = 4`: both bounds are excluded. -/
theorem C4_lane_test_open_band (d : α) (k : Int) :
    is_other_vehicle_in_my_lane d k = true ↔
      (k : α) * lane_width < d ∧ d < ((k : α) + 1) * lane_width ∧ (lane_width : α) = 4 := by
  rw [lane_test_iff]
  have hw : (lane_width : α) = 4 := by norm_num [lane_width]
  rw [hw]
  constructor
  · rintro ⟨h1, h2⟩
    exact ⟨by linarith, by linarith, rfl⟩
  · rintro ⟨h1, h2, _⟩
    exact ⟨by linarith, by linarith⟩

/-- C5: the new `ref_vel` is `ref_vel - 0.224` if some tracked object in the current
lane has propagated `s` ahead of `ego_s` by less than 30, otherwise `ref_vel + 0.224` if
`ref_vel < 49.5`, otherwise unchanged; `ego_s` is `end_path_s` when the leftover
trajectory is non-empty and the telemetry `s` otherwise. -/
theorem C5_speed_control (sqrt : α → α) (st : PlannerState α) (t : Telemetry α) :
    (cycle sqrt st t).ref_vel =
      if CloseAhead sqrt st.lane (if t.previous_path_x ≠ [] then t.end_path_s else t.car_s)
          t.previous_path_x.length t.sensor_fusion then
        st.ref_vel - 0.224
      else if st.ref_vel < 49.5 then st.ref_vel + 0.224 else st.ref_vel := by
  rw [cycle_ref_vel, egoS_eq]

/-- C6 (counterexample): after 221 cycles on an empty road the reference speed is
`49.504`, not `min(49.5, 221 * 0.224) = 49.5`. -/
theorem C6_ramp_overshoots :
    (run Rat.sqrt (initialState : PlannerState ℚ) (List.replicate 221 emptyRoad)).ref_vel = 49.504 ∧
      (run Rat.sqrt (initialState : PlannerState ℚ) (List.replicate 221 emptyRoad)).ref_vel ≠
        min highway_max_speed (221 * 0.224) := by
  rw [run_noTraffic_initial Rat.sqrt _ (noTraffic_replicate 221)]
  simp only [List.length_replicate, highway_max_speed]
  norm_num

/-- C6 (amended): from `ref_vel = 0`, after `n` cycles without tracked objects the
reference speed is `min(n, 221) * 0.224`: it is `n * 0.224` up to `n = 221` and stays at
`221 * 0.224 = 49.504` afterwards; it equals `min(V_max, n * 0.224)` for `n ≤ 220`. -/
theorem C6_speed_ramp (sqrt : α → α) (ts : List (Telemetry α)) (hts : NoTraffic ts) :
    (run sqrt initialState ts).ref_vel = ((min ts.length 221 : Nat) : α) * 0.224 ∧
      (ts.length ≤ 220 →
        (run sqrt initialState ts).ref_vel = min highway_max_speed ((ts.length : α) * 0.224)) := by
  rw [run_noTraffic_initial sqrt ts hts]
  refine ⟨rfl, fun h => ?_⟩
  have h1 : min ts.length 221 = ts.length := by omega
  have h2 : (ts.length : α) ≤ 220 := by exact_mod_cast h
  have h3 : (ts.length : α) * 0.224 ≤ highway_max_speed := by
    norm_num [highway_max_speed]; linarith
  simp only [h1, min_eq_right h3]

/-- C6 (witness): two cycles on an empty road. -/
theorem C6_speed_ramp_witness :
    (run Rat.sqrt (initialState : PlannerState ℚ) [emptyRoad, emptyRoad]).ref_vel =
        ((min [(emptyRoad : Telemetry ℚ), emptyRoad].length 221 : Nat) : ℚ) * 0.224 ∧
      ([(emptyRoad : Telemetry ℚ), emptyRoad].length ≤ 220 →
        (run Rat.sqrt (initialState : PlannerState ℚ) [emptyRoad, emptyRoad]).ref_vel =
          min highway_max_speed (([(emptyRoad : Telemetry ℚ), emptyRoad].length : ℚ) * 0.224)) :=
  C6_speed_ramp Rat.sqrt [emptyRoad, emptyRoad] (noTraffic_replicate 2)

/-- C7: a cycle started with `lane` in `{0, 1, 2}` ends with `lane` in `{0, 1, 2}`, for
every telemetry message; so the lane is in `{0, 1, 2}` after every run from the initial
state; at lane 0 a cycle never moves left and at lane 2 never moves right. -/
theorem C7_lane_invariant (sqrt : α → α) :
    (∀ (st : PlannerState α) (t : Telemetry α), 0 ≤ st.lane ∧ st.lane ≤ 2 →
        0 ≤ (cycle sqrt st t).lane ∧ (cycle sqrt st t).lane ≤ 2) ∧
    (∀ ts : List (Telemetry α),
        0 ≤ (run sqrt (initialState : PlannerState α) ts).lane ∧
          (run sqrt (initialState : PlannerState α) ts).lane ≤ 2) ∧
    (∀ (st : PlannerState α) (t : Telemetry α), st.lane = 0 →
        (cycle sqrt st t).lane ≠ st.lane - 1) ∧
    (∀ (st : PlannerState α) (t : Telemetry α), st.lane = 2 →
        (cycle sqrt st t).lane ≠ st.lane + 1) := by
  refine ⟨?_, run_lane_range sqrt, ?_, ?_⟩
  · intro st t h
    rw [cycle_lane]
    exact performLaneChange_range _ _ h.1 h.2
  · intro st t h
    have := (cycle_lane sqrt st t) ▸
      performLaneChange_range
        (laneChange sqrt st.lane (egoS t) t.previous_path_x.length
          (decide (CloseAhead sqrt st.lane (egoS t) t.previous_path_x.length t.sensor_fusion))
          t.sensor_fusion) st.lane (by omega) (by omega)
    omega
  · intro st t h
    have := (cycle_lane sqrt st t) ▸
      performLaneChange_range
        (laneChange sqrt st.lane (egoS t) t.previous_path_x.length
          (decide (CloseAhead sqrt st.lane (egoS t) t.previous_path_x.length t.sensor_fusion))
          t.sensor_fusion) st.lane (by omega) (by omega)
    omega

/-- C7 (witness): a cycle from lane 1 with a stopped vehicle 10 ahead in lane 1. -/
theorem C7_lane_invariant_witness :
    0 ≤ (cycle Rat.sqrt ({ lane := 1, ref_vel := 0 } : PlannerState ℚ)
          (roadWith [parked 10 6])).lane ∧
      (cycle Rat.sqrt ({ lane := 1, ref_vel := 0 } : PlannerState ℚ)
          (roadWith [parked 10 6])).lane ≤ 2 :=
  (C7_lane_invariant Rat.sqrt).1 { lane := 1, ref_vel := 0 } (roadWith [parked 10 6])
    ⟨by decide, by decide⟩

/-- C8 (counterexample): after 221 cycles on an empty road `ref_vel = 49.504 > V_max`,
and after one cycle with a stopped vehicle 10 ahead in lane 1 `ref_vel = -0.224 < 0`. -/
theorem C8_speed_leaves_range :
    highway_max_speed <
        (run Rat.sqrt (initialState : PlannerState ℚ) (List.replicate 221 emptyRoad)).ref_vel ∧
      (run Rat.sqrt (initialState : PlannerState ℚ) [roadWith [parked 10 6]]).ref_vel < 0 := by
  constructor
  · rw [run_noTraffic_initial Rat.sqrt _ (noTraffic_replicate 221)]
    simp only [List.length_replicate, highway_max_speed]
    norm_num
  · have hc : CloseAhead Rat.sqrt 1 (egoS (roadWith [parked 10 6] : Telemetry ℚ))
        (roadWith [parked 10 6] : Telemetry ℚ).previous_path_x.length
        (roadWith [parked 10 6] : Telemetry ℚ).sensor_fusion := by
      refine ⟨parked 10 6, by simp [roadWith], ?_, ?_, ?_⟩
      · simp [parked, is_other_vehicle_in_my_lane, lane_width]; norm_num
      · simp [parked, roadWith, emptyRoad, egoS]
      · simp [parked, roadWith, emptyRoad, egoS]; norm_num
    simp only [run, List.foldl_cons, List.foldl_nil, cycle_ref_vel]
    rw [show (initialState : PlannerState ℚ).lane = 1 from rfl, if_pos hc]
    norm_num [initialState]

/-- C8 (amended): in every state reachable from the initial state, `ref_vel` is
`k * 0.224` for an integer `k ≤ 221`; hence `ref_vel ≤ 49.504 < V_max + 0.224`. -/
theorem C8_speed_upper_bound (sqrt : α → α) (ts : List (Telemetry α)) :
    (∃ k : Int, k ≤ 221 ∧ (run sqrt (initialState : PlannerState α) ts).ref_vel = (k : α) * 0.224) ∧
      (run sqrt (initialState : PlannerState α) ts).ref_vel ≤ 49.504 ∧
      (run sqrt (initialState : PlannerState α) ts).ref_vel < highway_max_speed + 0.224 := by
  obtain ⟨k, hk, hv⟩ := run_ref_vel_steps sqrt ts
  have hk' : (k : α) ≤ 221 := by exact_mod_cast hk
  refine ⟨⟨k, hk, hv⟩, ?_, ?_⟩
  · rw [hv]; norm_num; linarith
  · rw [hv]; norm_num [highway_max_speed]; linarith

theorem cycle_lane_of_clear (sqrt : α → α) (st : PlannerState α) (t : Telemetry α)
    (hlane : 0 ≤ st.lane ∧ st.lane ≤ 2)
    (hclose : CloseAhead sqrt st.lane (egoS t) t.previous_path_x.length t.sensor_fusion)
    (hleft : ∀ o ∈ t.sensor_fusion, is_other_vehicle_in_my_lane o.d (st.lane - 1) = false)
    (hright : ∀ o ∈ t.sensor_fusion, is_other_vehicle_in_my_lane o.d (st.lane + 1) = false) :
    (cycle sqrt st t).lane = if st.lane > 0 then st.lane - 1 else st.lane + 1 := by
  have hne : t.sensor_fusion ≠ [] := by
    obtain ⟨o, ho, _⟩ := hclose
    exact List.ne_nil_of_mem ho
  rw [cycle_lane]
  simp only [hclose, decide_True, laneChange, if_true]
  rw [laneChange_foldl_clear sqrt st.lane (egoS t) _ t.sensor_fusion false hleft hright]
  have hemp : t.sensor_fusion.isEmpty = false := by
    cases hsf : t.sensor_fusion with
    | nil => exact absurd hsf hne
    | cons _ _ => rfl
  simp only [performLaneChange, hemp]
  split_ifs <;> first | rfl | (exfalso; simp_all; try omega)

/-- The example used by several witnesses: from lane 1, with one stopped vehicle 10
ahead in lane 1 and nothing else on the road, the cycle moves to lane 0. -/
theorem cycle_lane_example :
    (cycle Rat.sqrt ({ lane := 1, ref_vel := 0 } : PlannerState ℚ) (roadWith [parked 10 6])).lane
      = 0 := by
  have h := cycle_lane_of_clear Rat.sqrt ({ lane := 1, ref_vel := 0 } : PlannerState ℚ)
    (roadWith [parked 10 6]) ⟨by decide, by decide⟩
    ⟨parked 10 6, by simp [roadWith],
      by simp [parked, is_other_vehicle_in_my_lane, lane_width]; norm_num,
      by simp [parked, roadWith, emptyRoad, egoS],
      by simp [parked, roadWith, emptyRoad, egoS]; norm_num⟩
    (by
      intro o ho
      simp only [roadWith, List.mem_singleton] at ho
      subst ho
      simp [parked, is_other_vehicle_in_my_lane, lane_width]; norm_num)
    (by
      intro o ho
      simp only [roadWith, List.mem_singleton] at ho
      subst ho
      simp [parked, is_other_vehicle_in_my_lane, lane_width]; norm_num)
  simpa using h

/-- C9: with `lane` in `{0, 1, 2}`, a tracked object of the current lane ahead of ego by
less than 30 and no tracked object in either adjacent lane, the cycle changes lane: to
`lane - 1` when `lane > 0`, and to `lane + 1` when `lane = 0`. -/
theorem C9_lane_change_gating (sqrt : α → α) (st : PlannerState α) (t : Telemetry α)
    (hlane : 0 ≤ st.lane ∧ st.lane ≤ 2)
    (hclose : CloseAhead sqrt st.lane (egoS t) t.previous_path_x.length t.sensor_fusion)
    (hleft : ∀ o ∈ t.sensor_fusion, is_other_vehicle_in_my_lane o.d (st.lane - 1) = false)
    (hright : ∀ o ∈ t.sensor_fusion, is_other_vehicle_in_my_lane o.d (st.lane + 1) = false) :
    (cycle sqrt st t).lane = if st.lane > 0 then st.lane - 1 else st.lane + 1 :=
  cycle_lane_of_clear sqrt st t hlane hclose hleft hright

/-- C9 (witness): from lane 1 with a stopped vehicle 10 ahead in lane 1 and nothing
else on the road, the cycle moves to lane 0. -/
theorem C9_lane_change_gating_witness :
    (cycle Rat.sqrt ({ lane := 1, ref_vel := 0 } : PlannerState ℚ) (roadWith [parked 10 6])).lane =
      if (1 : Int) > 0 then 1 - 1 else 1 + 1 :=
  C9_lane_change_gating Rat.sqrt { lane := 1, ref_vel := 0 } (roadWith [parked 10 6])
    ⟨by decide, by decide⟩
    ⟨parked 10 6, by simp [roadWith],
      by simp [parked, is_other_vehicle_in_my_lane, lane_width]; norm_num,
      by simp [parked, roadWith, emptyRoad, egoS],
      by simp [parked, roadWith, emptyRoad, egoS]; norm_num⟩
    (by
      intro o ho
      simp only [roadWith, List.mem_singleton] at ho
      subst ho
      simp [parked, is_other_vehicle_in_my_lane, lane_width]; norm_num)
    (by
      intro o ho
      simp only [roadWith, List.mem_singleton] at ho
      subst ho
      simp [parked, is_other_vehicle_in_my_lane, lane_width]; norm_num)

/-- C10 (counterexample): from lane 1 with a stopped vehicle 10 ahead in lane 1 and a
stopped vehicle in lane 0 (`d = 2`) exactly 30 ahead, the cycle moves to lane 0 although
that vehicle's propagated `s` lies in the closed interval `[ego_s - 30, ego_s + 30]`. -/
theorem C10_changes_into_closed_interval :
    (cycle Rat.sqrt ({ lane := 1, ref_vel := 0 } : PlannerState ℚ)
        (roadWith [parked 10 6, parked 30 2])).lane = 0 ∧
      OccupiedClosed Rat.sqrt 0 (egoS (roadWith [parked 10 6, parked 30 2] : Telemetry ℚ))
        (roadWith [parked 10 6, parked 30 2] : Telemetry ℚ).previous_path_x.length
        (roadWith [parked 10 6, parked 30 2] : Telemetry ℚ).sensor_fusion := by
  constructor
  · have hc : CloseAhead Rat.sqrt 1 (egoS (roadWith [parked 10 6, parked 30 2] : Telemetry ℚ))
        (roadWith [parked 10 6, parked 30 2] : Telemetry ℚ).previous_path_x.length
        (roadWith [parked 10 6, parked 30 2] : Telemetry ℚ).sensor_fusion := by
      refine ⟨parked 10 6, by simp [roadWith], ?_, ?_, ?_⟩
      · simp [parked, is_other_vehicle_in_my_lane, lane_width]; norm_num
      · simp [parked, roadWith, emptyRoad, egoS]
      · simp [parked, roadWith, emptyRoad, egoS]; norm_num
    rw [cycle_lane]
    simp only [hc, decide_True, laneChange, if_true]
    simp [roadWith, emptyRoad, egoS, parked, laneChange.body, Vehicle.ofSensorFusion,
      predictedS, is_other_vehicle_in_my_lane, lane_width, safe_distance_eq,
      performLaneChange, rat_sqrt_zero]
    norm_num
  · refine ⟨parked 30 2, by simp [roadWith], ?_, ?_, ?_⟩
    · simp [parked, is_other_vehicle_in_my_lane, lane_width]; norm_num
    · simp [parked, roadWith, emptyRoad, egoS]
    · simp [parked, roadWith, emptyRoad, egoS]

/-- C10 (amended): whenever a cycle changes the lane, the new lane `k'` is `lane - 1` or
`lane + 1` and no tracked object that passes the lane test for `k'`
(`k' * 4 < d < (k' + 1) * 4`) has propagated `s` strictly between `ego_s - 30` and
`ego_s + 30` (open interval). -/
theorem C10_target_lane_clear (sqrt : α → α) (st : PlannerState α) (t : Telemetry α)
    (hchange : (cycle sqrt st t).lane ≠ st.lane) :
    ((cycle sqrt st t).lane = st.lane - 1 ∨ (cycle sqrt st t).lane = st.lane + 1) ∧
      ¬ Occupied sqrt (cycle sqrt st t).lane (egoS t) t.previous_path_x.length
          t.sensor_fusion := by
  rw [cycle_lane] at hchange ⊢
  by_cases hc : CloseAhead sqrt st.lane (egoS t) t.previous_path_x.length t.sensor_fusion
  · simp only [hc, decide_True, laneChange, if_true] at hchange ⊢
    have hL := laneChange_foldl_left sqrt st.lane (egoS t) t.previous_path_x.length
      t.sensor_fusion
      { ready_for_lane_change := false, is_left_lane_free := true, is_right_lane_free := true }
    have hR := laneChange_foldl_right sqrt st.lane (egoS t) t.previous_path_x.length
      t.sensor_fusion
      { ready_for_lane_change := false, is_left_lane_free := true, is_right_lane_free := true }
    generalize List.foldl (laneChange.body sqrt st.lane (egoS t) t.previous_path_x.length)
      { ready_for_lane_change := false, is_left_lane_free := true, is_right_lane_free := true }
      t.sensor_fusion = flags at hchange hL hR ⊢
    unfold performLaneChange at hchange ⊢
    split_ifs at hchange ⊢ with h1 h2
    · exact ⟨Or.inl rfl, (hL.mp h1.2.1).2⟩
    · exact ⟨Or.inr rfl, (hR.mp h2.2.1).2⟩
    · exact absurd rfl hchange
  · simp [hc, laneChange, performLaneChange] at hchange

/-- C10 (witness): from lane 1 with a stopped vehicle 10 ahead in lane 1 the cycle moves
to lane 0, where no tracked object is within 30 of ego. -/
theorem C10_target_lane_clear_witness :
    ((cycle Rat.sqrt ({ lane := 1, ref_vel := 0 } : PlannerState ℚ)
          (roadWith [parked 10 6])).lane = 1 - 1 ∨
        (cycle Rat.sqrt ({ lane := 1, ref_vel := 0 } : PlannerState ℚ)
          (roadWith [parked 10 6])).lane = 1 + 1) ∧
      ¬ Occupied Rat.sqrt
          (cycle Rat.sqrt ({ lane := 1, ref_vel := 0 } : PlannerState ℚ)
            (roadWith [parked 10 6])).lane
          (egoS (roadWith [parked 10 6] : Telemetry ℚ))
          (roadWith [parked 10 6] : Telemetry ℚ).previous_path_x.length
          (roadWith [parked 10 6] : Telemetry ℚ).sensor_fusion :=
  C10_target_lane_clear Rat.sqrt { lane := 1, ref_vel := 0 } (roadWith [parked 10 6])
    (by rw [cycle_lane_example]; decide)

end PlannerClaims

section LaneClaims

variable {α : Type} [LinearOrderedField α]

/-! ## Lane choice: frame condition and independence of the iteration order -/

theorem cycle_lane_of_not_close (sqrt : α → α) (st : PlannerState α) (t : Telemetry α)
    (h : ¬ CloseAhead sqrt st.lane (egoS t) t.previous_path_x.length t.sensor_fusion) :
    (cycle sqrt st t).lane = st.lane := by
  rw [cycle_lane]
  simp [h, laneChange, performLaneChange]

theorem laneChange_body_ready (sqrt : α → α) (lane : Int) (car_s : α) (prev_size : Nat)
    (f : LaneFlags) (o : SensorFusion α)
    (h : (laneChange.body sqrt lane car_s prev_size f o).is_left_lane_free = true ∨
      (laneChange.body sqrt lane car_s prev_size f o).is_right_lane_free = true) :
    (laneChange.body sqrt lane car_s prev_size f o).ready_for_lane_change = true := by
  unfold laneChange.body at h ⊢
  simp only at h ⊢
  split_ifs at h ⊢ <;> simp_all

/-- After the second loop over a non-empty list, a free lane implies
`ready_for_lane_change`. -/
theorem laneChange_foldl_ready (sqrt : α → α) (lane : Int) (car_s : α) (prev_size : Nat)
    (l : List (SensorFusion α)) (f : LaneFlags) (hne : l ≠ [])
    (h : (l.foldl (laneChange.body sqrt lane car_s prev_size) f).is_left_lane_free = true ∨
      (l.foldl (laneChange.body sqrt lane car_s prev_size) f).is_right_lane_free = true) :
    (l.foldl (laneChange.body sqrt lane car_s prev_size) f).ready_for_lane_change = true := by
  induction l using List.reverseRecOn with
  | nil => exact absurd rfl hne
  | append_singleton l o _ =>
    rw [List.foldl_append, List.foldl_cons, List.foldl_nil] at h ⊢
    exact laneChange_body_ready sqrt lane car_s prev_size _ o h

/-- The lane after a cycle is the lane given by the two-pass rule. -/
theorem cycle_lane_eq_twoPass (sqrt : α → α) (st : PlannerState α) (t : Telemetry α) :
    (cycle sqrt st t).lane =
      twoPassLane sqrt st.lane (egoS t) t.previous_path_x.length t.sensor_fusion := by
  unfold twoPassLane
  by_cases hc : CloseAhead sqrt st.lane (egoS t) t.previous_path_x.length t.sensor_fusion
  · have hne : t.sensor_fusion ≠ [] := by
      obtain ⟨o, ho, _⟩ := hc
      exact List.ne_nil_of_mem ho
    rw [cycle_lane]
    simp only [hc, decide_True, laneChange, if_true]
    have hL := laneChange_foldl_left sqrt st.lane (egoS t) t.previous_path_x.length
      t.sensor_fusion
      { ready_for_lane_change := false, is_left_lane_free := true, is_right_lane_free := true }
    have hR := laneChange_foldl_right sqrt st.lane (egoS t) t.previous_path_x.length
      t.sensor_fusion
      { ready_for_lane_change := false, is_left_lane_free := true, is_right_lane_free := true }
    have hrdy := laneChange_foldl_ready sqrt st.lane (egoS t) t.previous_path_x.length
      t.sensor_fusion
      { ready_for_lane_change := false, is_left_lane_free := true, is_right_lane_free := true }
      hne
    generalize List.foldl (laneChange.body sqrt st.lane (egoS t) t.previous_path_x.length)
      { ready_for_lane_change := false, is_left_lane_free := true, is_right_lane_free := true }
      t.sensor_fusion = flags at hL hR hrdy ⊢
    simp only [true_and] at hL hR
    unfold performLaneChange
    by_cases h1 : flags.is_left_lane_free = true
    · have hr := hrdy (Or.inl h1)
      have ho := hL.mp h1
      by_cases h2 : flags.is_right_lane_free = true
      · have ho2 := hR.mp h2
        simp [h1, h2, hr, ho, ho2]
      · have ho2 : Occupied sqrt (st.lane + 1) (egoS t) t.previous_path_x.length
            t.sensor_fusion := by
          by_contra hcon
          exact h2 (hR.mpr hcon)
        simp [h1, h2, hr, ho, ho2]
    · have ho : Occupied sqrt (st.lane - 1) (egoS t) t.previous_path_x.length
          t.sensor_fusion := by
        by_contra hcon
        exact h1 (hL.mpr hcon)
      by_cases h2 : flags.is_right_lane_free = true
      · have hr := hrdy (Or.inr h2)
        have ho2 := hR.mp h2
        simp [h1, h2, hr, ho, ho2]
      · have ho2 : Occupied sqrt (st.lane + 1) (egoS t) t.previous_path_x.length
            t.sensor_fusion := by
          by_contra hcon
          exact h2 (hR.mpr hcon)
        simp [h1, h2, ho, ho2]
  · rw [cycle_lane_of_not_close sqrt st t hc]
    simp [hc]

theorem closeAhead_perm (sqrt : α → α) (lane : Int) (ego_s : α) (leftover : Nat)
    (l1 l2 : List (SensorFusion α)) (h : l1.Perm l2) :
    CloseAhead sqrt lane ego_s leftover l1 ↔ CloseAhead sqrt lane ego_s leftover l2 := by
  unfold CloseAhead
  constructor
  · rintro ⟨o, ho, hp⟩; exact ⟨o, h.mem_iff.mp ho, hp⟩
  · rintro ⟨o, ho, hp⟩; exact ⟨o, h.mem_iff.mpr ho, hp⟩

theorem occupied_perm (sqrt : α → α) (k : Int) (ego_s : α) (leftover : Nat)
    (l1 l2 : List (SensorFusion α)) (h : l1.Perm l2) :
    Occupied sqrt k ego_s leftover l1 ↔ Occupied sqrt k ego_s leftover l2 := by
  unfold Occupied
  constructor
  · rintro ⟨o, ho, hp⟩; exact ⟨o, h.mem_iff.mp ho, hp⟩
  · rintro ⟨o, ho, hp⟩; exact ⟨o, h.mem_iff.mpr ho, hp⟩

theorem twoPassLane_perm (sqrt : α → α) (lane : Int) (ego_s : α) (leftover : Nat)
    (l1 l2 : List (SensorFusion α)) (h : l1.Perm l2) :
    twoPassLane sqrt lane ego_s leftover l1 = twoPassLane sqrt lane ego_s leftover l2 := by
  unfold twoPassLane
  simp only [closeAhead_perm sqrt lane ego_s leftover l1 l2 h,
    occupied_perm sqrt (lane - 1) ego_s leftover l1 l2 h,
    occupied_perm sqrt (lane + 1) ego_s leftover l1 l2 h]

/-- The lane after a cycle does not change when the tracked objects are permuted. -/
theorem cycle_lane_perm (sqrt : α → α) (st : PlannerState α) (t : Telemetry α)
    (l1 l2 : List (SensorFusion α)) (h : l1.Perm l2) :
    (cycle sqrt st { t with sensor_fusion := l1 }).lane =
      (cycle sqrt st { t with sensor_fusion := l2 }).lane := by
  rw [cycle_lane_eq_twoPass, cycle_lane_eq_twoPass]
  exact twoPassLane_perm sqrt st.lane _ _ l1 l2 h

/-- C11: in a cycle in which no tracked object of the current lane is close ahead
(`is_too_close` stays false), and in particular in a cycle with an empty tracked-object
list, the lane after the cycle equals the lane before it. -/
theorem C11_lane_kept_without_close_object (sqrt : α → α) (st : PlannerState α)
    (t : Telemetry α) :
    ((tooClose sqrt st.lane (egoS t) t.previous_path_x.length t.sensor_fusion).1 = false →
        (cycle sqrt st t).lane = st.lane) ∧
      (¬ CloseAhead sqrt st.lane (egoS t) t.previous_path_x.length t.sensor_fusion →
        (cycle sqrt st t).lane = st.lane) ∧
      (t.sensor_fusion = [] → (cycle sqrt st t).lane = st.lane) := by
  refine ⟨fun h => ?_, cycle_lane_of_not_close sqrt st t, fun h => ?_⟩
  · apply cycle_lane_of_not_close
    intro hc
    rw [tooClose_eq, if_pos hc] at h
    exact absurd h (by simp)
  · apply cycle_lane_of_not_close
    rw [h]
    exact closeAhead_nil _ _ _ _

/-- C11 (witness): from lane 1 with a stopped vehicle 40 ahead in lane 1 (not within 30),
the cycle stays in lane 1. -/
theorem C11_lane_kept_witness :
    (cycle Rat.sqrt ({ lane := 1, ref_vel := 0 } : PlannerState ℚ)
        (roadWith [parked 40 6])).lane = 1 :=
  (C11_lane_kept_without_close_object Rat.sqrt { lane := 1, ref_vel := 0 }
    (roadWith [parked 40 6])).2.1 (by
      rintro ⟨o, ho, _, _, h3⟩
      simp only [roadWith, List.mem_singleton] at ho
      subst ho
      simp [parked, roadWith, emptyRoad, egoS] at h3
      norm_num at h3)

/-- C19 (counterexample): there are no state, telemetry message and two tracked-object
lists that are permutations of one another for which the lane after the cycle differs. -/
theorem C19_no_order_dependent_lane :
    ¬ ∃ (sqrt : ℚ → ℚ) (st : PlannerState ℚ) (t : Telemetry ℚ)
        (objects1 objects2 : List (SensorFusion ℚ)),
        objects1.Perm objects2 ∧
          (cycle sqrt st { t with sensor_fusion := objects1 }).lane ≠
            (cycle sqrt st { t with sensor_fusion := objects2 }).lane := by
  rintro ⟨sqrt, st, t, l1, l2, hperm, hne⟩
  exact hne (cycle_lane_perm sqrt st t l1 l2 hperm)

/-- C19 (amended): the lane chosen by a cycle does not depend on the iteration order of
the tracked-object list: for two lists that are permutations of one another the resulting
lane is the same, and it is the lane of the two-pass rule (left-free and right-free
computed over all objects, then left preferred over right). -/
theorem C19_lane_order_independent (sqrt : α → α) (st : PlannerState α) (t : Telemetry α)
    (objects1 objects2 : List (SensorFusion α)) (hperm : objects1.Perm objects2) :
    (cycle sqrt st { t with sensor_fusion := objects1 }).lane =
        (cycle sqrt st { t with sensor_fusion := objects2 }).lane ∧
      (cycle sqrt st { t with sensor_fusion := objects1 }).lane =
        twoPassLane sqrt st.lane (egoS t) t.previous_path_x.length objects1 := by
  refine ⟨cycle_lane_perm sqrt st t objects1 objects2 hperm, ?_⟩
  rw [cycle_lane_eq_twoPass]
  rfl

/-- C19 (witness): a vehicle close ahead in lane 1 and a vehicle in lane 0, in both
orders. -/
theorem C19_lane_order_independent_witness :
    (cycle Rat.sqrt ({ lane := 1, ref_vel := 0 } : PlannerState ℚ)
          { (emptyRoad : Telemetry ℚ) with sensor_fusion := [parked 10 6, parked 20 2] }).lane =
        (cycle Rat.sqrt ({ lane := 1, ref_vel := 0 } : PlannerState ℚ)
          { (emptyRoad : Telemetry ℚ) with sensor_fusion := [parked 20 2, parked 10 6] }).lane ∧
      (cycle Rat.sqrt ({ lane := 1, ref_vel := 0 } : PlannerState ℚ)
          { (emptyRoad : Telemetry ℚ) with sensor_fusion := [parked 10 6, parked 20 2] }).lane =
        twoPassLane Rat.sqrt 1 (egoS (emptyRoad : Telemetry ℚ))
          (emptyRoad : Telemetry ℚ).previous_path_x.length [parked 10 6, parked 20 2] :=
  C19_lane_order_independent Rat.sqrt { lane := 1, ref_vel := 0 } emptyRoad
    [parked 10 6, parked 20 2] [parked 20 2, parked 10 6] (List.Perm.swap _ _ _)

end LaneClaims

section TrajectoryLemmas

variable {α : Type} [LinearOrderedField α]

/-! ## Lemmas on the trajectory assembly -/

theorem realMath_trig : realMath.Trig where
  cos_sq_add_sin_sq := fun a => by
    have h := Real.cos_sq_add_sin_sq a
    show Real.cos a * Real.cos a + Real.sin a * Real.sin a = 1
    nlinarith [h]
  cos_neg := Real.cos_neg
  sin_neg := Real.sin_neg
  cos_sub_half_pi := Real.cos_sub_pi_div_two
  sin_sub_half_pi := Real.sin_sub_pi_div_two
  sqrt_mul_self := Real.sqrt_mul_self_eq_abs

theorem range_map_vec (xs : List α) :
    (List.range xs.length).map (fun i => vec xs i) = xs := by
  apply List.ext_getElem
  · simp
  · intro i h1 h2
    simp [vec, List.getD, List.getElem?_eq_getElem h2]

theorem range_map_vec_of_length_eq (xs ys : List α) (h : xs.length = ys.length) :
    (List.range xs.length).map (fun i => vec ys i) = ys := by
  rw [h]
  exact range_map_vec ys

/-- Each iteration of the resampling loop appends one point to each output vector. -/
theorem resample_foldl_outputs {β : Type} (m : CMath α) (s : α → α)
    (ref_x ref_y ref_yaw ref_vel target_x target_dist : α) (l : List β) (init : SampleState α) :
    ∃ xs ys : List α, xs.length = l.length ∧ ys.length = l.length ∧
      (l.foldl (fun st _ =>
          resample.body m s ref_x ref_y ref_yaw ref_vel target_x target_dist st) init).next_x_vals
        = init.next_x_vals ++ xs ∧
      (l.foldl (fun st _ =>
          resample.body m s ref_x ref_y ref_yaw ref_vel target_x target_dist st) init).next_y_vals
        = init.next_y_vals ++ ys := by
  induction l generalizing init with
  | nil => exact ⟨[], [], rfl, rfl, by simp, by simp⟩
  | cons b l ih =>
    obtain ⟨xs, ys, hx, hy, hxs, hys⟩ :=
      ih (resample.body m s ref_x ref_y ref_yaw ref_vel target_x target_dist init)
    obtain ⟨px, py, hpx, hpy⟩ : ∃ px py : α,
        (resample.body m s ref_x ref_y ref_yaw ref_vel target_x target_dist init).next_x_vals
          = init.next_x_vals ++ [px] ∧
        (resample.body m s ref_x ref_y ref_yaw ref_vel target_x target_dist init).next_y_vals
          = init.next_y_vals ++ [py] := ⟨_, _, rfl, rfl⟩
    refine ⟨px :: xs, py :: ys, by simp [hx], by simp [hy], ?_, ?_⟩
    · rw [List.foldl_cons, hxs, hpx]
      simp
    · rw [List.foldl_cons, hys, hpy]
      simp

theorem resample_outputs (m : CMath α) (s : α → α)
    (ref_x ref_y ref_yaw ref_vel target_x target_dist : α) (prev_size : Nat)
    (init : SampleState α) :
    (resample m s ref_x ref_y ref_yaw ref_vel target_x target_dist prev_size init).next_x_vals.length
        = init.next_x_vals.length + (50 - prev_size) ∧
      (resample m s ref_x ref_y ref_yaw ref_vel target_x target_dist prev_size init).next_y_vals.length
        = init.next_y_vals.length + (50 - prev_size) ∧
      (resample m s ref_x ref_y ref_yaw ref_vel target_x target_dist prev_size
        init).next_x_vals.take init.next_x_vals.length = init.next_x_vals ∧
      (resample m s ref_x ref_y ref_yaw ref_vel target_x target_dist prev_size
        init).next_y_vals.take init.next_y_vals.length = init.next_y_vals := by
  obtain ⟨xs, ys, hx, hy, hxs, hys⟩ := resample_foldl_outputs m s ref_x ref_y ref_yaw ref_vel
    target_x target_dist (List.range (50 - prev_size)) init
  unfold resample
  rw [hxs, hys]
  simp [hx, hy]

/-- The assembled trajectory has `prev_size + (50 - prev_size)` points and starts with the
leftover trajectory. -/
theorem assemble_outputs (m : CMath α) (spline : List α → List α → α → α) (target_y0 : α)
    (ref_vel : α) (t : Telemetry α) (wp0 wp1 wp2 : α × α)
    (hlen : t.previous_path_x.length = t.previous_path_y.length) :
    (assemble m spline target_y0 ref_vel t wp0 wp1 wp2).1.length =
        t.previous_path_x.length + (50 - t.previous_path_x.length) ∧
      (assemble m spline target_y0 ref_vel t wp0 wp1 wp2).2.length =
        t.previous_path_x.length + (50 - t.previous_path_x.length) ∧
      (assemble m spline target_y0 ref_vel t wp0 wp1 wp2).1.take t.previous_path_x.length =
        t.previous_path_x ∧
      (assemble m spline target_y0 ref_vel t wp0 wp1 wp2).2.take t.previous_path_x.length =
        t.previous_path_y := by
  have hrx := range_map_vec t.previous_path_x
  have hry := range_map_vec_of_length_eq t.previous_path_x t.previous_path_y hlen
  simp only [assemble, hrx, hry]
  refine ⟨?_, ?_, ?_, ?_⟩
  · rw [(resample_outputs m _ _ _ _ _ _ _ _ _).1]
  · rw [(resample_outputs m _ _ _ _ _ _ _ _ _).2.1, hlen]
  · exact (resample_outputs m _ _ _ _ _ _ _ _
      { x_add_on := 0.0, next_x_vals := t.previous_path_x,
        next_y_vals := t.previous_path_y }).2.2.1
  · rw [hlen]
    exact (resample_outputs m _ _ _ _ _ _ _ _
      { x_add_on := 0.0, next_x_vals := t.previous_path_x,
        next_y_vals := t.previous_path_y }).2.2.2

theorem trajectory_of_anchors (m : CMath α) (spline : List α → List α → α → α)
    (target_y0 : α) (maps_s maps_x maps_y : List α) (st : PlannerState α) (t : Telemetry α)
    (wp0 wp1 wp2 : α × α)
    (h0 : getXY m (egoS t + 30) (lane_width * (st.lane : α) + lane_width / 2)
      maps_s maps_x maps_y = some wp0)
    (h1 : getXY m (egoS t + 60) (lane_width * (st.lane : α) + lane_width / 2)
      maps_s maps_x maps_y = some wp1)
    (h2 : getXY m (egoS t + 90) (lane_width * (st.lane : α) + lane_width / 2)
      maps_s maps_x maps_y = some wp2) :
    trajectory m spline target_y0 maps_s maps_x maps_y st t =
      some (assemble m spline target_y0 st.ref_vel t wp0 wp1 wp2) := by
  simp only [trajectory, h0, h1, h2, Option.bind_eq_bind, Option.some_bind]

/-- For `s` in the bracket `(maps_s[i], maps_s[i+1]]` of a strictly increasing `maps_s`,
the scan of `getXY` stops at `prev_wp = i`, every read is in range, and the result is
computed from the segment from waypoint `i` to waypoint `i + 1`. -/
theorem getXY_interior (m : CMath α) (s d : α) (maps_s maps_x maps_y : List α)
    (hlx : maps_s.length = maps_x.length) (hly : maps_x.length = maps_y.length)
    (hinc : ∀ j, j + 1 < maps_s.length → vec maps_s j < vec maps_s (j + 1))
    (i : Nat) (hi : i + 1 < maps_s.length) (hlo : vec maps_s i < s)
    (hhi : s ≤ vec maps_s (i + 1)) :
    getXY m s d maps_s maps_x maps_y =
      some (vec maps_x i + (s - vec maps_s i) *
                m.cos (m.atan2 (vec maps_y (i + 1) - vec maps_y i)
                  (vec maps_x (i + 1) - vec maps_x i)) +
              d * m.cos (m.atan2 (vec maps_y (i + 1) - vec maps_y i)
                  (vec maps_x (i + 1) - vec maps_x i) - m.pi / 2),
            vec maps_y i + (s - vec maps_s i) *
                m.sin (m.atan2 (vec maps_y (i + 1) - vec maps_y i)
                  (vec maps_x (i + 1) - vec maps_x i)) +
              d * m.sin (m.atan2 (vec maps_y (i + 1) - vec maps_y i)
                  (vec maps_x (i + 1) - vec maps_x i) - m.pi / 2)) := by
  have hbelow : ∀ j, j < i + 1 → vec maps_s j < s := by
    intro j hj
    rcases Nat.lt_succ_iff_lt_or_eq.mp hj with h | h
    · exact lt_trans (strictly_increasing_lt maps_s hinc j i h (by omega)) hlo
    · rw [h]; exact hlo
  have hrun := getXY.scan_run s maps_s (i + 1) hi hbelow (i + 1) 0 (by omega)
  have hstop := getXY.scan_stop s maps_s (i : Int) (vec maps_s (i + 1))
    (by exact_mod_cast vecAt_of_lt maps_s (i + 1) hi) (not_lt.mpr hhi)
  have hscan : getXY.scan s maps_s (-1) = some (i : Int) := by
    have h0 : ((0 : Nat) : Int) - 1 = -1 := by norm_num
    have hk1 : ((i + 1 : Nat) : Int) - 1 = (i : Int) := by push_cast; ring
    rw [h0, hk1] at hrun
    rw [hrun, hstop]
  have hmod : ((i : Int) + 1) % (maps_x.length : Int) = ((i + 1 : Nat) : Int) := by
    rw [Int.emod_eq_of_lt (by omega) (by omega)]; push_cast; ring
  exact getXY_of_scan m s d maps_s maps_x maps_y (i : Int) (vec maps_x i) (vec maps_y i)
    (vec maps_x (i + 1)) (vec maps_y (i + 1)) (vec maps_s i) hscan (by omega)
    (by rw [hmod]; exact vecAt_of_lt maps_y (i + 1) (by omega))
    (vecAt_of_lt maps_y i (by omega))
    (by rw [hmod]; exact vecAt_of_lt maps_x (i + 1) (by omega))
    (vecAt_of_lt maps_x i (by omega))
    (vecAt_of_lt maps_s i (by omega))

/-- At or below the first waypoint's `s`, the scan of `getXY` stops at `prev_wp = -1`
and `getXY` reads index `-1`. -/
theorem getXY_below_first (m : CMath α) (s d : α) (maps_s maps_x maps_y : List α)
    (hne : 0 < maps_s.length) (hs : s ≤ vec maps_s 0) :
    getXY.scan s maps_s (-1) = some (-1) ∧ vecAt maps_y (-1) = none ∧
      getXY m s d maps_s maps_x maps_y = none := by
  have hscan : getXY.scan s maps_s (-1) = some (-1) :=
    getXY.scan_stop s maps_s (-1) (vec maps_s 0)
      (by
        have h := vecAt_of_lt maps_s 0 hne
        simpa using h)
      (not_lt.mpr hs)
  have hy : vecAt maps_y (-1) = none := by simp [vecAt]
  refine ⟨hscan, hy, ?_⟩
  simp only [getXY, hscan, Option.bind_eq_bind, Option.some_bind]
  by_cases h0 : maps_x.length = 0
  · simp [h0]
  · cases hy2 : vecAt maps_y ((-1 + 1) % (maps_x.length : Int)) with
    | none => simp [h0, hy2]
    | some y2 => simp [h0, hy2, hy]

/-- Above the last waypoint's `s`, the loop condition of `getXY` reads `maps_s[n]`, one
past the end. -/
theorem getXY_above_last (m : CMath α) (s d : α) (maps_s maps_x maps_y : List α)
    (hne : 0 < maps_s.length) (hs : ∀ j, j < maps_s.length → vec maps_s j < s) :
    getXY.scan s maps_s (-1) = getXY.scan s maps_s ((maps_s.length : Int) - 1) ∧
      vecAt maps_s ((maps_s.length : Int) - 1 + 1) = none ∧
      getXY m s d maps_s maps_x maps_y = none := by
  obtain ⟨n, hn⟩ : ∃ n, maps_s.length = n + 1 := ⟨maps_s.length - 1, by omega⟩
  have hrun := getXY.scan_run s maps_s n (by omega) (fun j hj => hs j (by omega)) n 0
    (by omega)
  have h0 : ((0 : Nat) : Int) - 1 = -1 := by norm_num
  rw [h0] at hrun
  have hstep := getXY.scan_step s maps_s ((n : Int) - 1) (vec maps_s n)
    (by rw [sub_add_cancel]; exact vecAt_of_lt maps_s n (by omega)) (hs n (by omega))
    (by omega)
  rw [sub_add_cancel] at hstep
  have hlast : ((maps_s.length : Int) - 1) = (n : Int) := by omega
  have hread : vecAt maps_s ((n : Int) + 1) = none := by
    have h1 : (n : Int) + 1 = ((n + 1 : Nat) : Int) := by push_cast; ring
    rw [h1]
    simp only [vecAt, Int.natCast_nonneg, if_true, Int.toNat_ofNat]
    exact List.get?_eq_none.mpr (by omega)
  have hnone : getXY.scan s maps_s (n : Int) = none := by
    rw [getXY.scan, hread]
  refine ⟨by rw [hlast, hrun, hstep], by rw [hlast]; exact hread, ?_⟩
  simp only [getXY, hrun, hstep, hnone, Option.bind_eq_bind, Option.none_bind]

end TrajectoryLemmas

section TrajectoryClaims

variable {α : Type} [LinearOrderedField α]

/-! ## Claims on `getXY` and on the trajectory assembly -/

/-- On the straight map with waypoints `(0,0)`, `(100,0)` and `maps_s = [0, 100]`, `getXY`
is defined for every `s` in `(0, 100]`. -/
theorem getXY_straight_defined (a d : ℝ) (h0 : 0 < a) (h1 : a ≤ 100) :
    ∃ wp : ℝ × ℝ, getXY realMath a d [0, 100] [0, 100] [0, 0] = some wp :=
  ⟨_, getXY_interior realMath a d [0, 100] [0, 100] [0, 0] rfl rfl
    (by
      intro j hj
      simp only [List.length_cons, List.length_nil] at hj
      have hj0 : j = 0 := by omega
      subst hj0
      simp [vec])
    0 (by simp) (by simpa [vec] using h0) (by simpa [vec] using h1)⟩

/-- The three forward anchors of the example message `twoLeftover` from lane 1 on the
straight map. -/
theorem twoLeftover_anchors (ref_vel : ℝ) :
    ∃ wp0 wp1 wp2 : ℝ × ℝ,
      getXY realMath (egoS (twoLeftover : Telemetry ℝ) + 30)
          (lane_width * ((({ lane := 1, ref_vel := ref_vel } : PlannerState ℝ).lane : Int) : ℝ)
            + lane_width / 2) [0, 100] [0, 100] [0, 0] = some wp0 ∧
      getXY realMath (egoS (twoLeftover : Telemetry ℝ) + 60)
          (lane_width * ((({ lane := 1, ref_vel := ref_vel } : PlannerState ℝ).lane : Int) : ℝ)
            + lane_width / 2) [0, 100] [0, 100] [0, 0] = some wp1 ∧
      getXY realMath (egoS (twoLeftover : Telemetry ℝ) + 90)
          (lane_width * ((({ lane := 1, ref_vel := ref_vel } : PlannerState ℝ).lane : Int) : ℝ)
            + lane_width / 2) [0, 100] [0, 100] [0, 0] = some wp2 := by
  have he : egoS (twoLeftover : Telemetry ℝ) = 0 := by
    simp [egoS, twoLeftover, emptyRoad]
  rw [he]
  obtain ⟨wp0, h0⟩ := getXY_straight_defined (0 + 30)
    (lane_width * (((1 : Int)) : ℝ) + lane_width / 2) (by norm_num) (by norm_num)
  obtain ⟨wp1, h1⟩ := getXY_straight_defined (0 + 60)
    (lane_width * (((1 : Int)) : ℝ) + lane_width / 2) (by norm_num) (by norm_num)
  obtain ⟨wp2, h2⟩ := getXY_straight_defined (0 + 90)
    (lane_width * (((1 : Int)) : ℝ) + lane_width / 2) (by norm_num) (by norm_num)
  exact ⟨wp0, wp1, wp2, h0, h1, h2⟩

/-- C12: in every cycle whose three forward anchors are computed by `getXY` within the
map vectors, a trajectory is emitted and it starts with the leftover trajectory: for every
`k ≤ len(leftover)` its first `k` points are the first `k` leftover points, whatever the
fitted curve, the lane and the reference speed. -/
theorem C12_leftover_prefix (m : CMath α) (spline : List α → List α → α → α)
    (target_y0 : α) (maps_s maps_x maps_y : List α) (st : PlannerState α) (t : Telemetry α)
    (wp0 wp1 wp2 : α × α)
    (h0 : getXY m (egoS t + 30) (lane_width * (st.lane : α) + lane_width / 2)
      maps_s maps_x maps_y = some wp0)
    (h1 : getXY m (egoS t + 60) (lane_width * (st.lane : α) + lane_width / 2)
      maps_s maps_x maps_y = some wp1)
    (h2 : getXY m (egoS t + 90) (lane_width * (st.lane : α) + lane_width / 2)
      maps_s maps_x maps_y = some wp2)
    (hlen : t.previous_path_x.length = t.previous_path_y.length)
    (k : Nat) (hk : k ≤ t.previous_path_x.length) :
    ∃ out : List α × List α,
      trajectory m spline target_y0 maps_s maps_x maps_y st t = some out ∧
      out.1.take k = t.previous_path_x.take k ∧ out.2.take k = t.previous_path_y.take k := by
  refine ⟨_, trajectory_of_anchors m spline target_y0 maps_s maps_x maps_y st t wp0 wp1 wp2
    h0 h1 h2, ?_, ?_⟩
  · have h := (assemble_outputs m spline target_y0 st.ref_vel t wp0 wp1 wp2 hlen).2.2.1
    rw [← h, List.take_take, min_eq_left hk]
  · have h := (assemble_outputs m spline target_y0 st.ref_vel t wp0 wp1 wp2 hlen).2.2.2
    rw [← h, List.take_take, min_eq_left hk]

/-- C12 (witness): the message `twoLeftover` from lane 1 on the straight map, with the
constant curve `0`, over the real numbers, and `k = 2`. -/
theorem C12_leftover_prefix_witness :
    ∃ out : List ℝ × List ℝ,
      trajectory realMath (fun _ _ _ => 0) 0 [0, 100] [0, 100] [0, 0]
        { lane := 1, ref_vel := 0.224 } twoLeftover = some out ∧
      out.1.take 2 = (twoLeftover : Telemetry ℝ).previous_path_x.take 2 ∧
      out.2.take 2 = (twoLeftover : Telemetry ℝ).previous_path_y.take 2 := by
  obtain ⟨wp0, wp1, wp2, h0, h1, h2⟩ := twoLeftover_anchors 0.224
  exact C12_leftover_prefix realMath (fun _ _ _ => 0) 0 [0, 100] [0, 100] [0, 0]
    { lane := 1, ref_vel := 0.224 } twoLeftover wp0 wp1 wp2 h0 h1 h2 rfl 2 (le_refl 2)

/-- C13: in every cycle whose leftover trajectory has at most 50 points (and whose three
forward anchors are computed by `getXY` within the map vectors), the emitted trajectory
has exactly 50 points: the x list and the y list each have length 50. -/
theorem C13_trajectory_length (m : CMath α) (spline : List α → List α → α → α)
    (target_y0 : α) (maps_s maps_x maps_y : List α) (st : PlannerState α) (t : Telemetry α)
    (wp0 wp1 wp2 : α × α)
    (h0 : getXY m (egoS t + 30) (lane_width * (st.lane : α) + lane_width / 2)
      maps_s maps_x maps_y = some wp0)
    (h1 : getXY m (egoS t + 60) (lane_width * (st.lane : α) + lane_width / 2)
      maps_s maps_x maps_y = some wp1)
    (h2 : getXY m (egoS t + 90) (lane_width * (st.lane : α) + lane_width / 2)
      maps_s maps_x maps_y = some wp2)
    (hlen : t.previous_path_x.length = t.previous_path_y.length)
    (h50 : t.previous_path_x.length ≤ 50) :
    ∃ out : List α × List α,
      trajectory m spline target_y0 maps_s maps_x maps_y st t = some out ∧
      out.1.length = 50 ∧ out.2.length = 50 := by
  refine ⟨_, trajectory_of_anchors m spline target_y0 maps_s maps_x maps_y st t wp0 wp1 wp2
    h0 h1 h2, ?_, ?_⟩
  · rw [(assemble_outputs m spline target_y0 st.ref_vel t wp0 wp1 wp2 hlen).1]
    omega
  · rw [(assemble_outputs m spline target_y0 st.ref_vel t wp0 wp1 wp2 hlen).2.1]
    omega

/-- C13 (witness): the message `twoLeftover` from lane 1 on the straight map, with the
constant curve `0`, over the real numbers. -/
theorem C13_trajectory_length_witness :
    ∃ out : List ℝ × List ℝ,
      trajectory realMath (fun _ _ _ => 0) 0 [0, 100] [0, 100] [0, 0]
        { lane := 1, ref_vel := 0.224 } twoLeftover = some out ∧
      out.1.length = 50 ∧ out.2.length = 50 := by
  obtain ⟨wp0, wp1, wp2, h0, h1, h2⟩ := twoLeftover_anchors 0.224
  exact C13_trajectory_length realMath (fun _ _ _ => 0) 0 [0, 100] [0, 100] [0, 0]
    { lane := 1, ref_vel := 0.224 } twoLeftover wp0 wp1 wp2 h0 h1 h2 rfl (by
      simp [twoLeftover])

/-- C14 (failing input): on the map with `maps_s = [0, 10]`, waypoints `(0,0)`, `(10,0)`:
for `s = 0` the scan stops at `prev_wp = -1` and `getXY` reads index `-1`; for `s = 11`
the loop condition reads `maps_s[2]`.  In both cases an index outside `[0, n - 1]` is
read. -/
theorem C14_getXY_reads_out_of_range (m : CMath α) (d : α) :
    (getXY.scan (0 : α) [0, 10] (-1) = some (-1) ∧ vecAt ([0, 0] : List α) (-1) = none ∧
        getXY m 0 d [0, 10] [0, 10] [0, 0] = none) ∧
      (getXY.scan (11 : α) [0, 10] (-1) = getXY.scan (11 : α) [0, 10] 1 ∧
        vecAt ([0, 10] : List α) 2 = none ∧
        getXY m 11 d [0, 10] [0, 10] [0, 0] = none) := by
  constructor
  · exact getXY_below_first m 0 d [0, 10] [0, 10] [0, 0] (by simp) (by simp [vec])
  · have h := getXY_above_last m 11 d [0, 10] [0, 10] [0, 0] (by simp) (by
      intro j hj
      simp only [List.length_cons, List.length_nil] at hj
      have hj' : j = 0 ∨ j = 1 := by omega
      rcases hj' with rfl | rfl
      · simp [vec]
      · simp [vec]; norm_num)
    simpa using h

/-- The value `getXY(s, d)` on a segment, in terms of the unit direction of the segment. -/
theorem getXY_on_segment (m : CMath α) (hm : m.Lawful) (ht : m.Trig) (s d : α)
    (maps_s maps_x maps_y : List α)
    (hlx : maps_s.length = maps_x.length) (hly : maps_x.length = maps_y.length)
    (hinc : ∀ j, j + 1 < maps_s.length → vec maps_s j < vec maps_s (j + 1))
    (i : Nat) (hi : i + 1 < maps_s.length) (hlo : vec maps_s i < s)
    (hhi : s ≤ vec maps_s (i + 1))
    (hne : vec maps_x i ≠ vec maps_x (i + 1) ∨ vec maps_y i ≠ vec maps_y (i + 1)) :
    getXY m s d maps_s maps_x maps_y =
      some (vec maps_x i +
              (s - vec maps_s i) *
                (unitDirection m.sqrt (vec maps_x i) (vec maps_y i) (vec maps_x (i + 1))
                  (vec maps_y (i + 1))).1 +
              d * (rotateMinusQuarter
                (unitDirection m.sqrt (vec maps_x i) (vec maps_y i) (vec maps_x (i + 1))
                  (vec maps_y (i + 1)))).1,
            vec maps_y i +
              (s - vec maps_s i) *
                (unitDirection m.sqrt (vec maps_x i) (vec maps_y i) (vec maps_x (i + 1))
                  (vec maps_y (i + 1))).2 +
              d * (rotateMinusQuarter
                (unitDirection m.sqrt (vec maps_x i) (vec maps_y i) (vec maps_x (i + 1))
                  (vec maps_y (i + 1)))).2) := by
  rw [getXY_interior m s d maps_s maps_x maps_y hlx hly hinc i hi hlo hhi]
  have hL : 0 < distance m.sqrt (vec maps_x i) (vec maps_y i) (vec maps_x (i + 1))
      (vec maps_y (i + 1)) := distance_pos m.sqrt hm.sqrt_pos _ _ _ _ hne
  have hc := hm.sqrt_mul_cos (vec maps_x (i + 1) - vec maps_x i)
    (vec maps_y (i + 1) - vec maps_y i)
  have hs := hm.sqrt_mul_sin (vec maps_x (i + 1) - vec maps_x i)
    (vec maps_y (i + 1) - vec maps_y i)
  unfold distance at hL
  have hcos : m.cos (m.atan2 (vec maps_y (i + 1) - vec maps_y i)
      (vec maps_x (i + 1) - vec maps_x i)) =
      (vec maps_x (i + 1) - vec maps_x i) /
        m.sqrt ((vec maps_x (i + 1) - vec maps_x i) * (vec maps_x (i + 1) - vec maps_x i) +
          (vec maps_y (i + 1) - vec maps_y i) * (vec maps_y (i + 1) - vec maps_y i)) := by
    rw [eq_div_iff (ne_of_gt hL), mul_comm]
    exact hc
  have hsin : m.sin (m.atan2 (vec maps_y (i + 1) - vec maps_y i)
      (vec maps_x (i + 1) - vec maps_x i)) =
      (vec maps_y (i + 1) - vec maps_y i) /
        m.sqrt ((vec maps_x (i + 1) - vec maps_x i) * (vec maps_x (i + 1) - vec maps_x i) +
          (vec maps_y (i + 1) - vec maps_y i) * (vec maps_y (i + 1) - vec maps_y i)) := by
    rw [eq_div_iff (ne_of_gt hL), mul_comm]
    exact hs
  simp only [unitDirection, rotateMinusQuarter, distance, ht.cos_sub_half_pi,
    ht.sin_sub_half_pi, hcos, hsin]

/-- C16: on a road map with strictly increasing `maps_s`, for `maps_s[i] < s ≤ maps_s[i+1]`
with waypoints `i` and `i + 1` distinct, `getXY(s, d)` is waypoint `i` moved by
`s - maps_s[i]` along the unit direction `u` from waypoint `i` to waypoint `i + 1`, plus `d`
times `u` rotated by `-π/2`; the result is at distance `|d|` from `getXY(s, 0)` and the
offset is perpendicular to the segment. -/
theorem C16_getXY_on_segment (m : CMath α) (hm : m.Lawful) (ht : m.Trig) (s d : α)
    (maps_s maps_x maps_y : List α)
    (hlx : maps_s.length = maps_x.length) (hly : maps_x.length = maps_y.length)
    (hinc : ∀ j, j + 1 < maps_s.length → vec maps_s j < vec maps_s (j + 1))
    (i : Nat) (hi : i + 1 < maps_s.length) (hlo : vec maps_s i < s)
    (hhi : s ≤ vec maps_s (i + 1))
    (hne : vec maps_x i ≠ vec maps_x (i + 1) ∨ vec maps_y i ≠ vec maps_y (i + 1)) :
    ∃ p p0 : α × α,
      getXY m s d maps_s maps_x maps_y = some p ∧
      getXY m s 0 maps_s maps_x maps_y = some p0 ∧
      p.1 = vec maps_x i +
          (s - vec maps_s i) *
            (unitDirection m.sqrt (vec maps_x i) (vec maps_y i) (vec maps_x (i + 1))
              (vec maps_y (i + 1))).1 +
          d * (rotateMinusQuarter
            (unitDirection m.sqrt (vec maps_x i) (vec maps_y i) (vec maps_x (i + 1))
              (vec maps_y (i + 1)))).1 ∧
      p.2 = vec maps_y i +
          (s - vec maps_s i) *
            (unitDirection m.sqrt (vec maps_x i) (vec maps_y i) (vec maps_x (i + 1))
              (vec maps_y (i + 1))).2 +
          d * (rotateMinusQuarter
            (unitDirection m.sqrt (vec maps_x i) (vec maps_y i) (vec maps_x (i + 1))
              (vec maps_y (i + 1)))).2 ∧
      distance m.sqrt p0.1 p0.2 p.1 p.2 = |d| ∧
      (p.1 - p0.1) * (vec maps_x (i + 1) - vec maps_x i) +
        (p.2 - p0.2) * (vec maps_y (i + 1) - vec maps_y i) = 0 := by
  have e1 := getXY_interior m s d maps_s maps_x maps_y hlx hly hinc i hi hlo hhi
  have e2 := getXY_interior m s 0 maps_s maps_x maps_y hlx hly hinc i hi hlo hhi
  have e3 := getXY_on_segment m hm ht s d maps_s maps_x maps_y hlx hly hinc i hi hlo hhi hne
  have e4 := Option.some.inj (e1.symm.trans e3)
  have hc := hm.sqrt_mul_cos (vec maps_x (i + 1) - vec maps_x i)
    (vec maps_y (i + 1) - vec maps_y i)
  have hs := hm.sqrt_mul_sin (vec maps_x (i + 1) - vec maps_x i)
    (vec maps_y (i + 1) - vec maps_y i)
  have hcs := ht.cos_sq_add_sin_sq (m.atan2 (vec maps_y (i + 1) - vec maps_y i)
    (vec maps_x (i + 1) - vec maps_x i))
  refine ⟨_, _, e1, e2, congrArg Prod.fst e4, congrArg Prod.snd e4, ?_, ?_⟩
  · simp only [distance, ht.cos_sub_half_pi, ht.sin_sub_half_pi]
    rw [← ht.sqrt_mul_self d]
    congr 1
    linear_combination (d * d) * hcs
  · simp only [ht.cos_sub_half_pi, ht.sin_sub_half_pi]
    linear_combination
      (-(d * m.sin (m.atan2 (vec maps_y (i + 1) - vec maps_y i)
        (vec maps_x (i + 1) - vec maps_x i)))) * hc +
      (d * m.cos (m.atan2 (vec maps_y (i + 1) - vec maps_y i)
        (vec maps_x (i + 1) - vec maps_x i))) * hs

/-- C16 (witness): the map with waypoints `(0,0)`, `(3,4)` and `maps_s = [0, 5]`, at
`s = 2`, `d = 1`, over the real numbers. -/
theorem C16_getXY_on_segment_witness :
    ∃ p p0 : ℝ × ℝ,
      getXY realMath 2 1 [0, 5] [0, 3] [0, 4] = some p ∧
      getXY realMath 2 0 [0, 5] [0, 3] [0, 4] = some p0 ∧
      p.1 = vec [(0 : ℝ), 3] 0 +
          (2 - vec [(0 : ℝ), 5] 0) *
            (unitDirection realMath.sqrt (vec [(0 : ℝ), 3] 0) (vec [(0 : ℝ), 4] 0)
              (vec [(0 : ℝ), 3] (0 + 1)) (vec [(0 : ℝ), 4] (0 + 1))).1 +
          1 * (rotateMinusQuarter
            (unitDirection realMath.sqrt (vec [(0 : ℝ), 3] 0) (vec [(0 : ℝ), 4] 0)
              (vec [(0 : ℝ), 3] (0 + 1)) (vec [(0 : ℝ), 4] (0 + 1)))).1 ∧
      p.2 = vec [(0 : ℝ), 4] 0 +
          (2 - vec [(0 : ℝ), 5] 0) *
            (unitDirection realMath.sqrt (vec [(0 : ℝ), 3] 0) (vec [(0 : ℝ), 4] 0)
              (vec [(0 : ℝ), 3] (0 + 1)) (vec [(0 : ℝ), 4] (0 + 1))).2 +
          1 * (rotateMinusQuarter
            (unitDirection realMath.sqrt (vec [(0 : ℝ), 3] 0) (vec [(0 : ℝ), 4] 0)
              (vec [(0 : ℝ), 3] (0 + 1)) (vec [(0 : ℝ), 4] (0 + 1)))).2 ∧
      distance realMath.sqrt p0.1 p0.2 p.1 p.2 = |(1 : ℝ)| ∧
      (p.1 - p0.1) * (vec [(0 : ℝ), 3] (0 + 1) - vec [(0 : ℝ), 3] 0) +
        (p.2 - p0.2) * (vec [(0 : ℝ), 4] (0 + 1) - vec [(0 : ℝ), 4] 0) = 0 :=
  C16_getXY_on_segment realMath realMath_lawful realMath_trig 2 1 [0, 5] [0, 3] [0, 4]
    rfl rfl
    (by
      intro j hj
      simp only [List.length_cons, List.length_nil] at hj
      have hj0 : j = 0 := by omega
      subst hj0
      simp [vec])
    0 (by simp) (by simp [vec]) (by simp [vec]; norm_num) (by left; simp [vec])

/-- C18: the world-to-local transform maps the reference point to the origin, and the
local-to-world transform is its inverse: applying one after the other, in either order,
returns the point. -/
theorem C18_local_world_inverse (m : CMath α) (ht : m.Trig) (ref_x ref_y ref_yaw x y : α) :
    toLocal m ref_x ref_y ref_yaw ref_x ref_y = (0, 0) ∧
      toWorld m ref_x ref_y ref_yaw (toLocal m ref_x ref_y ref_yaw x y).1
        (toLocal m ref_x ref_y ref_yaw x y).2 = (x, y) ∧
      toLocal m ref_x ref_y ref_yaw (toWorld m ref_x ref_y ref_yaw x y).1
        (toWorld m ref_x ref_y ref_yaw x y).2 = (x, y) := by
  have hcs := ht.cos_sq_add_sin_sq ref_yaw
  refine ⟨?_, ?_, ?_⟩
  · simp [toLocal]
  · simp only [toLocal, toWorld, zero_sub, ht.cos_neg, ht.sin_neg]
    apply Prod.ext
    · simp only
      linear_combination (x - ref_x) * hcs
    · simp only
      linear_combination (y - ref_y) * hcs
  · simp only [toLocal, toWorld, zero_sub, ht.cos_neg, ht.sin_neg]
    apply Prod.ext
    · simp only
      linear_combination x * hcs
    · simp only
      linear_combination y * hcs

/-- C18 (witness): reference point `(1, 2)`, reference heading `π/3`, world point `(5, 7)`,
over the real numbers. -/
theorem C18_local_world_inverse_witness :
    toLocal realMath 1 2 (Real.pi / 3) 1 2 = (0, 0) ∧
      toWorld realMath 1 2 (Real.pi / 3) (toLocal realMath 1 2 (Real.pi / 3) 5 7).1
        (toLocal realMath 1 2 (Real.pi / 3) 5 7).2 = (5, 7) ∧
      toLocal realMath 1 2 (Real.pi / 3) (toWorld realMath 1 2 (Real.pi / 3) 5 7).1
        (toWorld realMath 1 2 (Real.pi / 3) 5 7).2 = (5, 7) :=
  C18_local_world_inverse realMath realMath_trig 1 2 (Real.pi / 3) 5 7

end TrajectoryClaims

section ResampleLemmas

variable {α : Type} [LinearOrderedField α]

/-! ## Lemmas on the reference speed and on the resampling loop -/

theorem cycle_of_not_close (sqrt : α → α) (st : PlannerState α) (t : Telemetry α)
    (h : ¬ CloseAhead sqrt st.lane (egoS t) t.previous_path_x.length t.sensor_fusion) :
    cycle sqrt st t =
      { lane := st.lane
        ref_vel := if st.ref_vel < 49.5 then st.ref_vel + 0.224 else st.ref_vel } := by
  have h1 := cycle_ref_vel sqrt st t
  have h2 := cycle_lane_of_not_close sqrt st t h
  rw [if_neg h] at h1
  cases hc : cycle sqrt st t with
  | mk l v =>
    rw [hc] at h1 h2
    simp only at h1 h2
    rw [h1, h2]

/-- The speed ramp while no tracked object is close ahead: from `k` steps of `0.224`
(`k ≤ 221`), each message adds one step until 221 steps are reached, and the lane is
kept. -/
theorem run_quiet (sqrt : α → α) (lane : Int) (ts : List (Telemetry α))
    (hts : QuietRun sqrt lane ts) (k : Nat) (hk : k ≤ 221) :
    run sqrt { lane := lane, ref_vel := (k : α) * 0.224 } ts =
      { lane := lane, ref_vel := ((min (k + ts.length) 221 : Nat) : α) * 0.224 } := by
  induction ts generalizing k with
  | nil => simp [run, hk]
  | cons t ts ih =>
    have ht := hts t (List.mem_cons_self _ _)
    have hts' : QuietRun sqrt lane ts := fun u hu => hts u (List.mem_cons_of_mem _ hu)
    simp only [run, List.foldl_cons]
    rw [cycle_of_not_close sqrt _ t ht]
    simp only
    rcases Nat.lt_or_ge k 221 with hlt | hge
    · have hk' : ((k : α)) ≤ 220 := by exact_mod_cast Nat.lt_succ_iff.mp hlt
      have hlt' : (k : α) * 0.224 < 49.5 := by norm_num; linarith
      rw [if_pos hlt']
      have hstep : (k : α) * 0.224 + 0.224 = ((k + 1 : Nat) : α) * 0.224 := by
        push_cast; ring
      rw [hstep]
      have := ih hts' (k + 1) hlt
      simp only [run] at this
      rw [this]
      congr 3
      simp only [List.length_cons]
      omega
    · have hk221 : k = 221 := le_antisymm hk hge
      subst hk221
      have hnlt : ¬ ((221 : Nat) : α) * 0.224 < 49.5 := by norm_num
      rw [if_neg hnlt]
      have := ih hts' 221 le_rfl
      simp only [run] at this
      rw [this]
      congr 3
      simp only [List.length_cons]
      omega

theorem run_quiet_initial (sqrt : α → α) (ts : List (Telemetry α))
    (hts : QuietRun sqrt 1 ts) :
    run sqrt initialState ts =
      { lane := 1, ref_vel := ((min ts.length 221 : Nat) : α) * 0.224 } := by
  have h := run_quiet sqrt 1 ts hts 0 (by norm_num)
  have h0 : (initialState : PlannerState α) = { lane := 1, ref_vel := ((0 : Nat) : α) * 0.224 } := by
    simp only [initialState]; norm_num
  rw [h0, h]
  simp

theorem resample_body_x_add_on (m : CMath α) (s : α → α)
    (ref_x ref_y ref_yaw ref_vel target_x target_dist : α) (st : SampleState α) :
    (resample.body m s ref_x ref_y ref_yaw ref_vel target_x target_dist st).x_add_on =
      st.x_add_on + target_x / (target_dist / (0.02 * ref_vel / 2.24)) := rfl

/-- With a positive reference speed the divisor of `N` is positive and each iteration of
the resampling loop increases `x_add_on`. -/
theorem resample_step_pos (m : CMath α) (hm : m.Lawful) (s : α → α)
    (ref_x ref_y ref_yaw ref_vel target_y : α) (st : SampleState α) (hv : 0 < ref_vel) :
    0 < 0.02 * ref_vel / 2.24 ∧
      st.x_add_on <
        (resample.body m s ref_x ref_y ref_yaw ref_vel 30.0
          (m.sqrt (30.0 * 30.0 + target_y * target_y)) st).x_add_on := by
  have hdiv : (0 : α) < 0.02 * ref_vel / 2.24 := by
    have h1 : (0 : α) < 0.02 := by norm_num
    have h2 : (0 : α) < 2.24 := by norm_num
    exact div_pos (mul_pos h1 hv) h2
  have hsum : (0 : α) < 30.0 * 30.0 + target_y * target_y := by
    have h1 : (0 : α) < 30.0 * 30.0 := by norm_num
    nlinarith [mul_self_nonneg target_y]
  have hdist := hm.sqrt_pos _ hsum
  refine ⟨hdiv, ?_⟩
  rw [resample_body_x_add_on]
  have h30 : (0 : α) < 30.0 := by norm_num
  have : 0 < (30.0 : α) / (m.sqrt (30.0 * 30.0 + target_y * target_y) /
      (0.02 * ref_vel / 2.24)) := div_pos h30 (div_pos hdist hdiv)
  linarith

end ResampleLemmas

section ResampleClaims

variable {α : Type} [LinearOrderedField α]

/-! ## Claims on the reference speed used by the resampling loop -/

theorem closeAhead_example :
    CloseAhead realMath.sqrt 1 (egoS (roadWith [parked 10 6] : Telemetry ℝ))
      (roadWith [parked 10 6] : Telemetry ℝ).previous_path_x.length
      (roadWith [parked 10 6] : Telemetry ℝ).sensor_fusion := by
  refine ⟨parked 10 6, by simp [roadWith], ?_, ?_, ?_⟩
  · simp [parked, is_other_vehicle_in_my_lane, lane_width]; norm_num
  · simp [parked, roadWith, emptyRoad, egoS]
  · simp [parked, roadWith, emptyRoad, egoS]; norm_num

/-- With a negative reference speed each iteration of the resampling loop decreases
`x_add_on`. -/
theorem resample_step_neg (m : CMath α) (hm : m.Lawful) (s : α → α)
    (ref_x ref_y ref_yaw ref_vel target_y : α) (st : SampleState α) (hv : ref_vel < 0) :
    (resample.body m s ref_x ref_y ref_yaw ref_vel 30.0
        (m.sqrt (30.0 * 30.0 + target_y * target_y)) st).x_add_on < st.x_add_on := by
  have hdiv : 0.02 * ref_vel / 2.24 < (0 : α) := by
    have h1 : (0 : α) < 0.02 := by norm_num
    have h2 : (0 : α) < 2.24 := by norm_num
    exact div_neg_of_neg_of_pos (mul_neg_of_pos_of_neg h1 hv) h2
  have hsum : (0 : α) < 30.0 * 30.0 + target_y * target_y := by
    have h1 : (0 : α) < 30.0 * 30.0 := by norm_num
    nlinarith [mul_self_nonneg target_y]
  have hdist := hm.sqrt_pos _ hsum
  rw [resample_body_x_add_on]
  have h30 : (0 : α) < 30.0 := by norm_num
  have : (30.0 : α) / (m.sqrt (30.0 * 30.0 + target_y * target_y) /
      (0.02 * ref_vel / 2.24)) < 0 :=
    div_neg_of_pos_of_neg h30 (div_neg_of_pos_of_neg hdist hdiv)
  linarith

/-- C20 (counterexample): from the initial state, one cycle with a stopped vehicle 10 ahead
in lane 1 leaves `ref_vel = -0.224`, and the first iteration of the resampling loop then
moves `x_add_on` below its start `0`; after an empty cycle followed by such a cycle
`ref_vel = 0`, so the divisor `0.02 * ref_vel / 2.24` is zero. -/
theorem C20_speed_not_positive :
    (cycle realMath.sqrt (initialState : PlannerState ℝ) (roadWith [parked 10 6])).ref_vel
        = -0.224 ∧
      (resample.body realMath (fun _ => 0) 0 0 0
        (cycle realMath.sqrt (initialState : PlannerState ℝ) (roadWith [parked 10 6])).ref_vel
        30.0 (realMath.sqrt (30.0 * 30.0 + 0 * 0))
        { x_add_on := 0, next_x_vals := [], next_y_vals := [] }).x_add_on < 0 ∧
      (run realMath.sqrt (initialState : PlannerState ℝ)
        [emptyRoad, roadWith [parked 10 6]]).ref_vel = 0 ∧
      0.02 * (run realMath.sqrt (initialState : PlannerState ℝ)
        [emptyRoad, roadWith [parked 10 6]]).ref_vel / 2.24 = 0 := by
  have h1 : (cycle realMath.sqrt (initialState : PlannerState ℝ)
      (roadWith [parked 10 6])).ref_vel = -0.224 := by
    rw [cycle_ref_vel]
    rw [show (initialState : PlannerState ℝ).lane = 1 from rfl, if_pos closeAhead_example]
    norm_num [initialState]
  have h2 : (run realMath.sqrt (initialState : PlannerState ℝ)
      [emptyRoad, roadWith [parked 10 6]]).ref_vel = 0 := by
    have hr := run_noTraffic_initial realMath.sqrt [(emptyRoad : Telemetry ℝ)]
      (noTraffic_replicate 1)
    have happ := run_append_one realMath.sqrt (initialState : PlannerState ℝ)
      [(emptyRoad : Telemetry ℝ)] (roadWith [parked 10 6])
    simp only [List.singleton_append] at happ
    rw [happ, hr, cycle_ref_vel]
    simp only
    rw [if_pos closeAhead_example]
    norm_num
  refine ⟨h1, ?_, h2, by rw [h2]; norm_num⟩
  rw [h1]
  exact resample_step_neg realMath realMath_lawful (fun _ => 0) 0 0 0 (-0.224) 0
    { x_add_on := 0, next_x_vals := [], next_y_vals := [] } (by norm_num)

/-- C20 (amended): in every state reached from the initial state by one or more cycles in
none of which a tracked object of lane 1 is close ahead, the reference speed is strictly
positive; and whenever the reference speed `v` used by the resampling loop is strictly
positive, the divisor `0.02 * v / 2.24` is positive (not zero) and each iteration of the
loop increases `x_add_on`. -/
theorem C20_positive_speed_resampling (m : CMath α) (hm : m.Lawful)
    (ts : List (Telemetry α)) (hne : ts ≠ []) (hquiet : QuietRun m.sqrt 1 ts) :
    0 < (run m.sqrt initialState ts).ref_vel ∧
      ∀ (v : α) (s : α → α) (ref_x ref_y ref_yaw target_y : α) (st : SampleState α), 0 < v →
        0 < 0.02 * v / 2.24 ∧
          st.x_add_on <
            (resample.body m s ref_x ref_y ref_yaw v 30.0
              (m.sqrt (30.0 * 30.0 + target_y * target_y)) st).x_add_on := by
  constructor
  · rw [run_quiet_initial m.sqrt ts hquiet]
    simp only
    have hlen : 0 < ts.length := List.length_pos.mpr hne
    have h1 : 1 ≤ min ts.length 221 := by omega
    have h2 : (1 : α) ≤ ((min ts.length 221 : Nat) : α) := by exact_mod_cast h1
    have h3 : (0 : α) < 0.224 := by norm_num
    nlinarith
  · intro v s ref_x ref_y ref_yaw target_y st hv
    exact resample_step_pos m hm s ref_x ref_y ref_yaw v target_y st hv

/-- C20 (witness): one cycle on an empty road, over the real numbers. -/
theorem C20_positive_speed_resampling_witness :
    0 < (run realMath.sqrt (initialState : PlannerState ℝ) [emptyRoad]).ref_vel ∧
      ∀ (v : ℝ) (s : ℝ → ℝ) (ref_x ref_y ref_yaw target_y : ℝ) (st : SampleState ℝ), 0 < v →
        0 < 0.02 * v / 2.24 ∧
          st.x_add_on <
            (resample.body realMath s ref_x ref_y ref_yaw v 30.0
              (realMath.sqrt (30.0 * 30.0 + target_y * target_y)) st).x_add_on :=
  C20_positive_speed_resampling realMath realMath_lawful [emptyRoad] (by simp)
    (by
      intro t ht
      simp only [List.mem_singleton] at ht
      subst ht
      exact closeAhead_nil _ _ _ _)

end ResampleClaims

section AnchorClaims

variable {α : Type} [LinearOrderedField α]

/-! ## The anchors synthesised from the ego yaw, and the spacing of the new points -/

theorem real_sin_180_ne_zero : Real.sin 180 ≠ 0 := by
  intro h
  obtain ⟨n, hn⟩ := Real.sin_eq_zero_iff.mp h
  have h1 := Real.pi_gt_d2
  have h2 := Real.pi_lt_d2
  rcases le_or_lt n 57 with hle | hlt
  · have : (n : ℝ) ≤ 57 := by exact_mod_cast hle
    nlinarith
  · have : (58 : ℝ) ≤ (n : ℝ) := by exact_mod_cast hlt
    nlinarith

theorem real_cos_180_ne_zero : Real.cos 180 ≠ 0 := by
  intro h
  obtain ⟨n, hn⟩ := Real.cos_eq_zero_iff.mp h
  have h1 := Real.pi_gt_d2
  have h2 := Real.pi_lt_d2
  rcases le_or_lt n 56 with hle | hlt
  · have : (n : ℝ) ≤ 56 := by exact_mod_cast hle
    nlinarith
  · have : (57 : ℝ) ≤ (n : ℝ) := by exact_mod_cast hlt
    nlinarith

theorem real_cos_180_neg : Real.cos 180 < 0 := by
  have h1 := Real.pi_gt_d2
  have h2 := Real.pi_lt_d2
  have hsplit : (180 : ℝ) = (180 - 57 * Real.pi) + ((57 : ℕ) : ℝ) * Real.pi := by
    push_cast; ring
  rw [hsplit, Real.cos_add_nat_mul_pi]
  have hpos : 0 < Real.cos (180 - 57 * Real.pi) :=
    Real.cos_pos_of_mem_Ioo ⟨by linarith, by linarith⟩
  have hodd : ((-1 : ℝ)) ^ 57 = -1 := by norm_num
  rw [hodd]
  linarith

theorem reference_facing_180 :
    referencePoints realMath (facing (180 : ℝ)) =
      { ref_x := 0, ref_y := 0, ref_yaw := Real.pi
        pts_x := [-Real.cos 180, 0], pts_y := [-Real.sin 180, 0] } := by
  have hd : deg2rad realMath (180 : ℝ) = Real.pi := by
    show (180 : ℝ) * Real.pi / 180 = Real.pi
    ring
  simp only [referencePoints, facing, emptyRoad, List.length_nil, hd]
  simp [realMath]

theorem toLocal_pi (x y : ℝ) : toLocal realMath 0 0 Real.pi x y = (-x, -y) := by
  simp [toLocal, realMath]

theorem toWorld_pi (x y : ℝ) : toWorld realMath 0 0 Real.pi x y = (-x, -y) := by
  simp [toWorld, realMath]

/-- C17 (failing input): with no leftover trajectory and ego yaw `180` (degrees), the
reference heading is `deg2rad(180) = π` but the first anchor is built with
`cos(180)`, `sin(180)` (radians); after the local-frame transform the two anchors are
`(cos 180, sin 180)` and `(0, 0)`, and `sin 180 ≠ 0`, so the first one is not `(-1, 0)`. -/
theorem C17_first_anchor_not_behind :
    (referencePoints realMath (facing (180 : ℝ))).ref_yaw = deg2rad realMath 180 ∧
      localAnchors realMath (referencePoints realMath (facing (180 : ℝ))).ref_x
          (referencePoints realMath (facing (180 : ℝ))).ref_y
          (referencePoints realMath (facing (180 : ℝ))).ref_yaw
          (referencePoints realMath (facing (180 : ℝ))).pts_x
          (referencePoints realMath (facing (180 : ℝ))).pts_y =
        ([Real.cos 180, 0], [Real.sin 180, 0]) ∧
      ((Real.cos 180, Real.sin 180) : ℝ × ℝ) ≠ (-1, 0) := by
  refine ⟨rfl, ?_, ?_⟩
  · rw [reference_facing_180]
    simp [localAnchors, List.range_succ, vec, toLocal_pi]
  · intro h
    exact real_sin_180_ne_zero (congrArg Prod.snd h)

/-- The first two points appended by the resampling loop when it runs at least twice. -/
theorem resample_first_two (m : CMath α) (s : α → α)
    (ref_x ref_y ref_yaw ref_vel target_x target_dist : α) (prev_size : Nat)
    (init : SampleState α) (h2 : prev_size + 2 ≤ 50) :
    (resample m s ref_x ref_y ref_yaw ref_vel target_x target_dist prev_size
        init).next_x_vals.take (init.next_x_vals.length + 2) =
        (resample.body m s ref_x ref_y ref_yaw ref_vel target_x target_dist
          (resample.body m s ref_x ref_y ref_yaw ref_vel target_x target_dist
            init)).next_x_vals ∧
      (resample m s ref_x ref_y ref_yaw ref_vel target_x target_dist prev_size
        init).next_y_vals.take (init.next_y_vals.length + 2) =
        (resample.body m s ref_x ref_y ref_yaw ref_vel target_x target_dist
          (resample.body m s ref_x ref_y ref_yaw ref_vel target_x target_dist
            init)).next_y_vals := by
  obtain ⟨k, hk⟩ : ∃ k, 50 - prev_size = k + 2 := ⟨48 - prev_size, by omega⟩
  have hrange : List.range (50 - prev_size) =
      0 :: 1 :: (List.range k).map (fun i => i + 2) := by
    rw [hk, List.range_succ_eq_map, List.range_succ_eq_map]
    simp [List.map_map, Function.comp_def]
  unfold resample
  rw [hrange, List.foldl_cons, List.foldl_cons]
  obtain ⟨xs, ys, _, _, hxs, hys⟩ := resample_foldl_outputs m s ref_x ref_y ref_yaw ref_vel
    target_x target_dist ((List.range k).map (fun i => i + 2))
    (resample.body m s ref_x ref_y ref_yaw ref_vel target_x target_dist
      (resample.body m s ref_x ref_y ref_yaw ref_vel target_x target_dist init))
  rw [hxs, hys]
  constructor
  · apply List.take_left'
    simp [resample.body]
  · apply List.take_left'
    simp [resample.body]

theorem resample_body_on_line (a x0 : ℝ) (xs ys : List ℝ) :
    resample.body realMath (fun x => a * x) 0 0 Real.pi 2.24 30.0 30
        { x_add_on := x0, next_x_vals := xs, next_y_vals := ys } =
      { x_add_on := x0 + 0.02, next_x_vals := xs ++ [-(x0 + 0.02)],
        next_y_vals := ys ++ [-(a * (x0 + 0.02))] } := by
  have hstep : (30.0 : ℝ) / (30 / (0.02 * 2.24 / 2.24)) = 0.02 := by norm_num
  simp only [resample.body, toWorld_pi, hstep]

/-- C15 (failing input): no leftover trajectory, ego at `(0, 0)` with yaw `180`, reference
speed `2.24`, forward anchors on the line through the ego in direction
`(cos 180, sin 180)`, uninitialised `target_y` equal to `0`.  The five local anchors lie on
the straight line `y = a x` through the local origin with `a = sin 180 / cos 180`; with
this line as fitted curve the first two new points are `(-0.02, -0.02 a)` and
`(-0.04, -0.04 a)`, whose distance is not `0.02 * 2.24 / 2.24`.  Since `cos 180 < 0`, the
local abscissas `cos 180 < 0 < -30 cos 180 < -60 cos 180 < -90 cos 180` of the anchors are
strictly increasing. -/
theorem C15_spacing_on_sloped_line :
    (∀ i, i < 5 →
      Real.sin 180 / Real.cos 180 *
          vec (localAnchors realMath (referencePoints realMath (facing (180 : ℝ))).ref_x
            (referencePoints realMath (facing (180 : ℝ))).ref_y
            (referencePoints realMath (facing (180 : ℝ))).ref_yaw
            ((referencePoints realMath (facing (180 : ℝ))).pts_x ++
              [30 * Real.cos 180, 60 * Real.cos 180, 90 * Real.cos 180])
            ((referencePoints realMath (facing (180 : ℝ))).pts_y ++
              [30 * Real.sin 180, 60 * Real.sin 180, 90 * Real.sin 180])).1 i =
        vec (localAnchors realMath (referencePoints realMath (facing (180 : ℝ))).ref_x
            (referencePoints realMath (facing (180 : ℝ))).ref_y
            (referencePoints realMath (facing (180 : ℝ))).ref_yaw
            ((referencePoints realMath (facing (180 : ℝ))).pts_x ++
              [30 * Real.cos 180, 60 * Real.cos 180, 90 * Real.cos 180])
            ((referencePoints realMath (facing (180 : ℝ))).pts_y ++
              [30 * Real.sin 180, 60 * Real.sin 180, 90 * Real.sin 180])).2 i) ∧
      (assemble realMath (fun _ _ x => Real.sin 180 / Real.cos 180 * x) 0 2.24 (facing 180)
          (30 * Real.cos 180, 30 * Real.sin 180) (60 * Real.cos 180, 60 * Real.sin 180)
          (90 * Real.cos 180, 90 * Real.sin 180)).1.take 2 = [-0.02, -0.04] ∧
      (assemble realMath (fun _ _ x => Real.sin 180 / Real.cos 180 * x) 0 2.24 (facing 180)
          (30 * Real.cos 180, 30 * Real.sin 180) (60 * Real.cos 180, 60 * Real.sin 180)
          (90 * Real.cos 180, 90 * Real.sin 180)).2.take 2 =
        [-(Real.sin 180 / Real.cos 180 * 0.02), -(Real.sin 180 / Real.cos 180 * 0.04)] ∧
      distance Real.sqrt (-0.02) (-(Real.sin 180 / Real.cos 180 * 0.02)) (-0.04)
          (-(Real.sin 180 / Real.cos 180 * 0.04)) ≠ 0.02 * 2.24 / 2.24 ∧
      Real.cos 180 < 0 := by
  have hc := real_cos_180_ne_zero
  have hs := real_sin_180_ne_zero
  have hdist : realMath.sqrt (30.0 * 30.0 +
      Real.sin 180 / Real.cos 180 * 0 * (Real.sin 180 / Real.cos 180 * 0)) = 30 := by
    show Real.sqrt _ = 30
    rw [show (30.0 : ℝ) * 30.0 +
      Real.sin 180 / Real.cos 180 * 0 * (Real.sin 180 / Real.cos 180 * 0) = 30 * 30 by norm_num]
    exact Real.sqrt_mul_self (by norm_num)
  have hprev : (facing (180 : ℝ)).previous_path_x = [] := rfl
  have htwo := resample_first_two realMath (fun x => Real.sin 180 / Real.cos 180 * x) 0 0
    Real.pi 2.24 30.0 30 0 { x_add_on := 0.0, next_x_vals := [], next_y_vals := [] }
    (by norm_num)
  simp only [List.length_nil, zero_add, resample_body_on_line] at htwo
  refine ⟨?_, ?_, ?_, ?_, real_cos_180_neg⟩
  · intro i hi
    rw [reference_facing_180]
    simp only [localAnchors, toLocal_pi]
    have hi' : i = 0 ∨ i = 1 ∨ i = 2 ∨ i = 3 ∨ i = 4 := by omega
    rcases hi' with rfl | rfl | rfl | rfl | rfl <;>
      simp [List.range_succ, vec] <;> field_simp <;> ring
  · simp only [assemble, reference_facing_180, hprev, List.length_nil, List.range_zero,
      List.map_nil, hdist]
    rw [htwo.1]
    simp
    norm_num
  · simp only [assemble, reference_facing_180, hprev, List.length_nil, List.range_zero,
      List.map_nil, hdist]
    rw [htwo.2]
    simp
    norm_num
  · intro h
    unfold distance at h
    have h02 : (0.02 : ℝ) * 2.24 / 2.24 = 0.02 := by norm_num
    rw [h02] at h
    have hsq := (Real.sqrt_eq_iff_mul_self_eq
      (add_nonneg (mul_self_nonneg _) (mul_self_nonneg _)) (by norm_num)).mp h
    have ha : Real.sin 180 / Real.cos 180 ≠ 0 := div_ne_zero hs hc
    have : (Real.sin 180 / Real.cos 180) * (Real.sin 180 / Real.cos 180) = 0 := by
      nlinarith
    exact ha (mul_self_eq_zero.mp this)

end AnchorClaims

end PathPlanning
